import Mathlib

/-!
# Verification of the stperf call-tree profiler core

A shallow embedding of `src/stperf.h` / `src/stperf.cpp`:

* `cag.Granularity`, `cag.FindTimeGranularity`, `cag.NanosToValue`,
  `cag.FindCommonGranularity` — the granularity resolver.
* `cag.PerfNode` — the recursive call-tree node. C++ `float` fields
  (`_value`, `_pct`) are modelled as exact rationals `ℚ`; `_nanos` and
  `_hits` (`std::uint64_t`) as `ℕ`; `_indent` (`int`) as `ℤ`.
* `ReduceChildren`, `ComputeTreeLevelMap`, `ComputeNodesCollapse` — the
  same-name reducer.  The C++ `std::unordered_map` iterates its buckets in
  an unspecified order; the embedding determinises this as first-occurrence
  order of the names, which fixes one of the admissible executions.
* `CalculateRootRelativePct`, `CalculateTreeRelativePct` — percentage
  annotation.
* `ProfState`, `applyStart`, `applyStop`, `ResetCounters`, `GetCallTree` —
  the per-thread scope stacks and the snapshot assembler.  The C++ stack of
  raw pointers `std::stack<PerfNode*>` always points along the rightmost
  spine of the thread's last root (a push always targets the most recently
  appended element), so it is modelled by its depth, the insertion point
  being the rightmost spine of the roots vector at that depth.
* The C API layer: `stperf_StartProf'` (parameterised by the unspecified
  `std::hash<std::string>`) and `ToCHeapNode` with its fixed 128-byte name
  array.
-/

namespace cag

/-- `enum class Granularity { S, MS, US, NS }` (underlying values 0,1,2,3). -/
inductive Granularity where
  | S
  | MS
  | US
  | NS
deriving DecidableEq, Repr

/-- The underlying integer value of the `Granularity` enum. -/
def Granularity.toUnderlying : Granularity → Nat
  | .S => 0
  | .MS => 1
  | .US => 2
  | .NS => 3

/-- `static_cast<Granularity>` from the underlying integer value. -/
def Granularity.ofUnderlying : Nat → Granularity
  | 0 => .S
  | 1 => .MS
  | 2 => .US
  | _ => .NS

/-- Nanoseconds per unit: `0x3B9ACA00`, `0xF4240`, `0x3E8`, `1`. -/
def Granularity.unitNanos : Granularity → Nat
  | .S => 1000000000
  | .MS => 1000000
  | .US => 1000
  | .NS => 1

/-- `cag::FindTimeGranularity`: coarsest unit in which `t` is at least 1. -/
def FindTimeGranularity (t : Nat) : Granularity :=
  if t / 1000000000 > 0 then .S
  else if t / 1000000 > 0 then .MS
  else if t / 1000 > 0 then .US
  else .NS

/-- `cag::NanosToValue`: nanoseconds as a value in unit `g`
(C++ `float` division modelled as exact `ℚ` division). -/
def NanosToValue (g : Granularity) (t : Nat) : ℚ :=
  (t : ℚ) / (g.unitNanos : ℚ)

/-- `cag::FindCommonGranularity`: the max of the two underlying enum
values, cast back to `Granularity`. -/
def FindCommonGranularity (g1 g2 : Granularity) : Granularity :=
  Granularity.ofUnderlying (max g1.toUnderlying g2.toUnderlying)

/-- `cag::PerfNode`.  Default field values are the C++ value-initialisation
of the struct (`emplace_back()` / `new stperf_PerfNode()` zero-initialise
every member; enum value 0 is `S`). -/
structure PerfNode where
  granularity : Granularity := .S
  value : ℚ := 0
  pct : ℚ := 0
  nanos : Nat := 0
  name : String := ""
  indent : Int := 0
  children : List PerfNode := []
  hits : Nat := 0

mutual

def PerfNode.decEq : (a b : PerfNode) → Decidable (a = b)
  | ⟨g1, v1, p1, n1, m1, i1, c1, h1⟩, ⟨g2, v2, p2, n2, m2, i2, c2, h2⟩ =>
    match inferInstanceAs (Decidable (g1 = g2)), inferInstanceAs (Decidable (v1 = v2)),
          inferInstanceAs (Decidable (p1 = p2)), inferInstanceAs (Decidable (n1 = n2)),
          inferInstanceAs (Decidable (m1 = m2)), inferInstanceAs (Decidable (i1 = i2)),
          PerfNode.decEqList c1 c2, inferInstanceAs (Decidable (h1 = h2)) with
    | isTrue hg, isTrue hv, isTrue hp, isTrue hn, isTrue hm, isTrue hi,
      isTrue hc, isTrue hh => isTrue (by subst hg hv hp hn hm hi hc hh; rfl)
    | isFalse hg, _, _, _, _, _, _, _ => isFalse (by intro h; cases h; exact hg rfl)
    | _, isFalse hv, _, _, _, _, _, _ => isFalse (by intro h; cases h; exact hv rfl)
    | _, _, isFalse hp, _, _, _, _, _ => isFalse (by intro h; cases h; exact hp rfl)
    | _, _, _, isFalse hn, _, _, _, _ => isFalse (by intro h; cases h; exact hn rfl)
    | _, _, _, _, isFalse hm, _, _, _ => isFalse (by intro h; cases h; exact hm rfl)
    | _, _, _, _, _, isFalse hi, _, _ => isFalse (by intro h; cases h; exact hi rfl)
    | _, _, _, _, _, _, isFalse hc, _ => isFalse (by intro h; cases h; exact hc rfl)
    | _, _, _, _, _, _, _, isFalse hh => isFalse (by intro h; cases h; exact hh rfl)

def PerfNode.decEqList : (a b : List PerfNode) → Decidable (a = b)
  | [], [] => isTrue rfl
  | [], _ :: _ => isFalse (by intro h; cases h)
  | _ :: _, [] => isFalse (by intro h; cases h)
  | a :: as, b :: bs =>
    match PerfNode.decEq a b, PerfNode.decEqList as bs with
    | isTrue h1, isTrue h2 => isTrue (by subst h1 h2; rfl)
    | isFalse h1, _ => isFalse (by intro h; cases h; exact h1 rfl)
    | _, isFalse h2 => isFalse (by intro h; cases h; exact h2 rfl)

end

instance : DecidableEq PerfNode := PerfNode.decEq

-- Number of nodes of a tree (used both as spec quantity and as the
-- termination measure of the reducer).
mutual

def PerfNode.count : PerfNode → Nat
  | ⟨_, _, _, _, _, _, c, _⟩ => 1 + PerfNode.countList c

def PerfNode.countList : List PerfNode → Nat
  | [] => 0
  | a :: as => a.count + PerfNode.countList as

end

theorem PerfNode.count_eq (n : PerfNode) : n.count = 1 + PerfNode.countList n.children := by
  cases n; rfl

theorem PerfNode.countList_eq (l : List PerfNode) :
    PerfNode.countList l = (l.map PerfNode.count).sum := by
  induction l with
  | nil => rfl
  | cons a as ih => simp [PerfNode.countList, ih]

theorem PerfNode.countList_append (l1 l2 : List PerfNode) :
    PerfNode.countList (l1 ++ l2) = PerfNode.countList l1 + PerfNode.countList l2 := by
  induction l1 with
  | nil => simp [PerfNode.countList]
  | cons a as ih => simp [PerfNode.countList, ih]; ring

theorem PerfNode.countList_flatten (L : List (List PerfNode)) :
    PerfNode.countList L.flatten = (L.map PerfNode.countList).sum := by
  induction L with
  | nil => rfl
  | cons l ls ih => simp [List.flatten, PerfNode.countList_append, ih]

theorem PerfNode.countList_filter_le (p : PerfNode → Bool) (l : List PerfNode) :
    PerfNode.countList (l.filter p) ≤ PerfNode.countList l := by
  induction l with
  | nil => simp
  | cons a as ih =>
    by_cases h : p a <;> simp [List.filter, h, PerfNode.countList] <;> omega

theorem PerfNode.count_pos (n : PerfNode) : 0 < n.count := by
  rw [PerfNode.count_eq]; omega

/-- A value-initialised `cag::PerfNode` (all members zeroed, as produced
by `emplace_back()` in `addLeaf`). -/
def PerfNode.valueInit : PerfNode :=
  { granularity := .S, value := 0, pct := 0, nanos := 0,
    name := "", indent := 0, children := [], hits := 0 }

/-- `ReduceChildren`: merge a group of same-named siblings into one node.
The C++ function requires a non-empty group (`nodes.front()`); the
embedding totalises the representative with `headD`. -/
def ReduceChildren (nodes : List PerfNode) : PerfNode :=
  let first := nodes.headD PerfNode.valueInit
  let nanos := (nodes.map (·.nanos)).sum
  let g := FindTimeGranularity nanos
  { name := first.name
    indent := first.indent
    pct := first.pct
    nanos := nanos
    granularity := g
    value := NanosToValue g nanos
    hits := nodes.length
    children := (nodes.map (·.children)).flatten }

/-- The distinct names occurring at one tree level.  `ComputeTreeLevelMap`
builds a `std::unordered_map` keyed by name; its iteration order is
unspecified, and the embedding determinises it as the order produced by
`List.dedup` of the names. -/
def levelNames (level : List PerfNode) : List String :=
  (level.map (·.name)).dedup

/-- `ComputeTreeLevelMap`: group a tree level by node name.  Each group
keeps the level's relative order (a filter of the level); the groups are
enumerated in `levelNames` order. -/
def ComputeTreeLevelMap (level : List PerfNode) : List (List PerfNode) :=
  (levelNames level).map (fun nm => level.filter (fun n => n.name = nm))

theorem ComputeTreeLevelMap_mem_ne_nil {level g : List PerfNode}
    (hg : g ∈ ComputeTreeLevelMap level) : g ≠ [] := by
  rcases List.mem_map.1 hg with ⟨nm, hnm, rfl⟩
  have hmem : nm ∈ level.map (·.name) := List.mem_dedup.1 hnm
  rcases List.mem_map.1 hmem with ⟨n, hn, rfl⟩
  intro hempty
  have : n ∈ level.filter (fun m => m.name = n.name) :=
    List.mem_filter.2 ⟨hn, by simp⟩
  rw [hempty] at this
  exact absurd this (List.not_mem_nil n)

theorem ComputeTreeLevelMap_mem_countList {level g : List PerfNode}
    (hg : g ∈ ComputeTreeLevelMap level) :
    PerfNode.countList g ≤ PerfNode.countList level := by
  rcases List.mem_map.1 hg with ⟨nm, _, rfl⟩
  exact PerfNode.countList_filter_le _ _

theorem PerfNode.sum_countList_children (g : List PerfNode) :
    ((g.map (·.children)).map PerfNode.countList).sum + g.length
      = PerfNode.countList g := by
  induction g with
  | nil => rfl
  | cons a as ih =>
    simp only [List.map_cons, List.sum_cons, List.length_cons, PerfNode.countList]
    rw [PerfNode.count_eq a]
    omega

theorem ReduceChildren_count_le {level g : List PerfNode}
    (hg : g ∈ ComputeTreeLevelMap level) :
    (ReduceChildren g).count ≤ PerfNode.countList level := by
  have hne : g ≠ [] := ComputeTreeLevelMap_mem_ne_nil hg
  have hlen : 1 ≤ g.length := by
    cases g with
    | nil => exact absurd rfl hne
    | cons a as => simp
  have h1 : (ReduceChildren g).count
      = 1 + PerfNode.countList ((g.map (·.children)).flatten) := by
    rw [PerfNode.count_eq]; rfl
  have h2 : PerfNode.countList ((g.map (·.children)).flatten)
      = ((g.map (·.children)).map PerfNode.countList).sum := PerfNode.countList_flatten _
  have h3 := PerfNode.sum_countList_children g
  have h4 : PerfNode.countList g ≤ PerfNode.countList level :=
    ComputeTreeLevelMap_mem_countList hg
  omega

theorem sum_map_filter_split (f : PerfNode → Nat) (p : PerfNode → Bool)
    (l : List PerfNode) :
    ((l.filter p).map f).sum + ((l.filter (fun n => !p n)).map f).sum
      = (l.map f).sum := by
  induction l with
  | nil => rfl
  | cons a as ih =>
    by_cases h : p a <;> simp [List.filter_cons, h] <;> omega

theorem sum_over_names (f : PerfNode → Nat) :
    ∀ (names : List String) (l : List PerfNode), names.Nodup →
      (∀ x ∈ l, x.name ∈ names) →
      ((names.map (fun nm => ((l.filter (fun n => n.name = nm)).map f).sum)).sum
        = (l.map f).sum) := by
  intro names
  induction names with
  | nil =>
    intro l _ hcov
    have : l = [] := by
      cases l with
      | nil => rfl
      | cons a as => exact absurd (hcov a (List.mem_cons_self a as)) (by simp)
    subst this; rfl
  | cons nm rest ih =>
    intro l hnd hcov
    have hnm : nm ∉ rest := (List.nodup_cons.1 hnd).1
    have hrest : rest.Nodup := (List.nodup_cons.1 hnd).2
    set l2 := l.filter (fun n => !(n.name = nm : Bool)) with hl2
    have hsplit := sum_map_filter_split f (fun n => n.name = nm) l
    have hfilters : ∀ nm' ∈ rest,
        l.filter (fun n => n.name = nm') = l2.filter (fun n => n.name = nm') := by
      intro nm' hmem
      rw [hl2, List.filter_filter]
      apply List.filter_congr
      intro x _
      by_cases hx : x.name = nm'
      · have hne : x.name ≠ nm := by rw [hx]; intro h; exact hnm (h ▸ hmem)
        simp [hx, hne]
        exact fun hq => hne (hx.trans hq)
      · simp [hx]
    have hcov2 : ∀ x ∈ l2, x.name ∈ rest := by
      intro x hx
      have hxl : x ∈ l := List.mem_of_mem_filter hx
      have hne : ¬(x.name = nm) := by
        have := List.of_mem_filter hx
        simpa using this
      rcases List.mem_cons.1 (hcov x hxl) with h | h
      · exact absurd h hne
      · exact h
    have ihl2 := ih l2 hrest hcov2
    have hmapeq :
        (rest.map (fun nm' => ((l.filter (fun n => n.name = nm')).map f).sum))
          = (rest.map (fun nm' => ((l2.filter (fun n => n.name = nm')).map f).sum)) := by
      apply List.map_congr_left
      intro nm' hmem
      rw [hfilters nm' hmem]
    simp only [List.map_cons, List.sum_cons]
    rw [hmapeq, ihl2, hl2]
    omega

theorem sum_over_groups (l : List PerfNode) (f : PerfNode → Nat) :
    ((ComputeTreeLevelMap l).map (fun g => (g.map f).sum)).sum = (l.map f).sum := by
  have : ComputeTreeLevelMap l
      = (levelNames l).map (fun nm => l.filter (fun n => n.name = nm)) := rfl
  rw [this, List.map_map]
  have hnd : (levelNames l).Nodup := List.nodup_dedup _
  have hcov : ∀ x ∈ l, x.name ∈ levelNames l := by
    intro x hx
    exact List.mem_dedup.2 (List.mem_map.2 ⟨x, hx, rfl⟩)
  exact sum_over_names f (levelNames l) l hnd hcov

theorem sum_ones_length (l : List PerfNode) :
    ((l.map (fun _ => 1)).sum) = l.length := by
  induction l with
  | nil => rfl
  | cons a as ih => simp [ih]; omega

theorem groups_length_sum (l : List PerfNode) :
    ((ComputeTreeLevelMap l).map (fun g => g.length)).sum = l.length := by
  have h := sum_over_groups l (fun _ => 1)
  rw [sum_ones_length] at h
  rw [← h]
  apply congrArg
  apply List.map_congr_left
  intro g _
  exact (sum_ones_length g).symm

theorem groups_countList_sum (l : List PerfNode) :
    ((ComputeTreeLevelMap l).map PerfNode.countList).sum = PerfNode.countList l := by
  have h := sum_over_groups l PerfNode.count
  rw [← PerfNode.countList_eq] at h
  rw [← h]
  apply congrArg
  apply List.map_congr_left
  intro g _
  exact PerfNode.countList_eq g

theorem groups_nanos_sum (l : List PerfNode) :
    ((ComputeTreeLevelMap l).map (fun g => (g.map (·.nanos)).sum)).sum
      = (l.map (·.nanos)).sum :=
  sum_over_groups l (·.nanos)

/-- `ComputeNodesCollapse`: recursively collapse same-named sibling groups
below `root`. -/
def ComputeNodesCollapse (root : PerfNode) : PerfNode :=
  if root.children.isEmpty then root
  else
    { root with children :=
        ((ComputeTreeLevelMap root.children).attach.map
          (fun g => ComputeNodesCollapse (ReduceChildren g.1))) }
termination_by root.count
decreasing_by
  have h1 := ReduceChildren_count_le g.2
  have h2 := PerfNode.count_eq root
  omega

theorem ComputeNodesCollapse_eq (root : PerfNode) :
    ComputeNodesCollapse root =
      if root.children.isEmpty then root
      else
        { root with children :=
            ((ComputeTreeLevelMap root.children).map
              (fun g => ComputeNodesCollapse (ReduceChildren g))) } := by
  rw [ComputeNodesCollapse]
  by_cases h : root.children.isEmpty <;> simp [h, List.attach_map_val]

/-- The number of nodes merged away by `ComputeNodesCollapse` below
`root`: at every grouping step a group of `k` same-named siblings leaves
one node, losing `k - 1`. -/
def collapsedLoss (root : PerfNode) : Nat :=
  if root.children.isEmpty then 0
  else
    ((ComputeTreeLevelMap root.children).attach.map
      (fun g => (g.1.length - 1) + collapsedLoss (ReduceChildren g.1))).sum
termination_by root.count
decreasing_by
  have h1 := ReduceChildren_count_le g.2
  have h2 := PerfNode.count_eq root
  omega

theorem collapsedLoss_eq (root : PerfNode) :
    collapsedLoss root =
      if root.children.isEmpty then 0
      else
        ((ComputeTreeLevelMap root.children).map
          (fun g => (g.length - 1) + collapsedLoss (ReduceChildren g))).sum := by
  rw [collapsedLoss]
  by_cases h : root.children.isEmpty <;> simp [h, List.attach_map_val]

theorem PerfNode.count_le_countList {c : PerfNode} {l : List PerfNode}
    (h : c ∈ l) : c.count ≤ PerfNode.countList l := by
  induction l with
  | nil => exact absurd h (List.not_mem_nil c)
  | cons a as ih =>
    rcases List.mem_cons.1 h with rfl | h'
    · simp [PerfNode.countList]
    · have := ih h'
      simp [PerfNode.countList]
      omega

/-- `CalculateRootRelativePct`: ratio of `node`'s duration to `root`'s,
both converted to the common granularity first (C++ `float` division
modelled as exact `ℚ` division). -/
def CalculateRootRelativePct (root node : PerfNode) : ℚ :=
  let g := FindCommonGranularity node.granularity root.granularity
  NanosToValue g node.nanos / NanosToValue g root.nanos

/-- `CalculateTreeRelativePct`: assign every node below `root` its
percentage relative to `root` (the C++ mutates in place; the embedding
returns the updated children list). -/
def CalculateTreeRelativePct (root : PerfNode) (children : List PerfNode) :
    List PerfNode :=
  children.attach.map (fun c =>
    { c.1 with pct := CalculateRootRelativePct root c.1,
               children := CalculateTreeRelativePct root c.1.children })
termination_by PerfNode.countList children
decreasing_by
  have h1 := PerfNode.count_le_countList c.2
  have h2 := PerfNode.count_eq c.1
  omega

theorem CalculateTreeRelativePct_eq (root : PerfNode) (children : List PerfNode) :
    CalculateTreeRelativePct root children =
      children.map (fun c =>
        { c with pct := CalculateRootRelativePct root c,
                 children := CalculateTreeRelativePct root c.children }) := by
  rw [CalculateTreeRelativePct]
  simp [List.attach_map_val]

theorem sum_map_add_of_pointwise (L : List α) (F G H : α → Nat)
    (h : ∀ x ∈ L, F x + G x = H x) :
    (L.map F).sum + (L.map G).sum = (L.map H).sum := by
  induction L with
  | nil => rfl
  | cons a as ih =>
    have ha := h a (List.mem_cons_self a as)
    have hrest := ih (fun x hx => h x (List.mem_cons_of_mem a hx))
    simp only [List.map_cons, List.sum_cons]
    omega

theorem ReduceChildren_count_add (g : List PerfNode) :
    (ReduceChildren g).count + g.length = PerfNode.countList g + 1 := by
  have h1 : (ReduceChildren g).count
      = 1 + PerfNode.countList ((g.map (·.children)).flatten) := by
    rw [PerfNode.count_eq]; rfl
  rw [h1, PerfNode.countList_flatten]
  have h3 := PerfNode.sum_countList_children g
  omega

theorem ComputeTreeLevelMap_mem_len {level g : List PerfNode}
    (hg : g ∈ ComputeTreeLevelMap level) : 1 ≤ g.length := by
  have := ComputeTreeLevelMap_mem_ne_nil hg
  cases g with
  | nil => exact absurd rfl this
  | cons a as => simp

theorem collapse_count_bound (N : Nat) : ∀ root : PerfNode, root.count ≤ N →
    (ComputeNodesCollapse root).count + collapsedLoss root = root.count := by
  induction N with
  | zero =>
    intro root h
    exact absurd (Nat.lt_of_lt_of_le root.count_pos h) (lt_irrefl 0)
  | succ N ih =>
    intro root h
    rw [ComputeNodesCollapse_eq, collapsedLoss_eq]
    by_cases hc : root.children.isEmpty
    · simp [hc]
    · rw [if_neg hc, if_neg hc]
      have hcount : ({ root with children :=
          ((ComputeTreeLevelMap root.children).map
            (fun g => ComputeNodesCollapse (ReduceChildren g))) } : PerfNode).count
          = 1 + PerfNode.countList ((ComputeTreeLevelMap root.children).map
              (fun g => ComputeNodesCollapse (ReduceChildren g))) := by
        rw [PerfNode.count_eq]
      rw [hcount, PerfNode.countList_eq, List.map_map]
      have hpoint : ∀ g ∈ ComputeTreeLevelMap root.children,
          (PerfNode.count ∘ fun g => ComputeNodesCollapse (ReduceChildren g)) g
            + ((g.length - 1) + collapsedLoss (ReduceChildren g))
            = PerfNode.countList g := by
        intro g hg
        have hlen := ComputeTreeLevelMap_mem_len hg
        have hred := ReduceChildren_count_add g
        have hle : (ReduceChildren g).count ≤ N := by
          have h1 := ReduceChildren_count_le hg
          have h2 := PerfNode.count_eq root
          omega
        have hih := ih (ReduceChildren g) hle
        simp only [Function.comp]
        omega
      have hsum := sum_map_add_of_pointwise (ComputeTreeLevelMap root.children)
        (PerfNode.count ∘ fun g => ComputeNodesCollapse (ReduceChildren g))
        (fun g => (g.length - 1) + collapsedLoss (ReduceChildren g))
        PerfNode.countList hpoint
      rw [groups_countList_sum] at hsum
      have hroot := PerfNode.count_eq root
      omega

theorem collapse_count (root : PerfNode) :
    (ComputeNodesCollapse root).count + collapsedLoss root = root.count :=
  collapse_count_bound root.count root le_rfl

theorem annotate_countList_bound (N : Nat) : ∀ (root : PerfNode)
    (cs : List PerfNode), PerfNode.countList cs ≤ N →
    PerfNode.countList (CalculateTreeRelativePct root cs) = PerfNode.countList cs := by
  induction N with
  | zero =>
    intro root cs h
    cases cs with
    | nil => rw [CalculateTreeRelativePct_eq]; rfl
    | cons a as =>
      have := a.count_pos
      simp [PerfNode.countList] at h
      omega
  | succ N ih =>
    intro root cs h
    rw [CalculateTreeRelativePct_eq, PerfNode.countList_eq, PerfNode.countList_eq,
      List.map_map]
    apply congrArg
    apply List.map_congr_left
    intro c hc
    have hcle := PerfNode.count_le_countList hc
    have hceq := PerfNode.count_eq c
    have hrec : PerfNode.countList c.children ≤ N := by omega
    simp only [Function.comp]
    rw [PerfNode.count_eq]
    simp only []
    rw [ih root c.children hrec, ← PerfNode.count_eq]

theorem annotate_countList (root : PerfNode) (cs : List PerfNode) :
    PerfNode.countList (CalculateTreeRelativePct root cs) = PerfNode.countList cs :=
  annotate_countList_bound (PerfNode.countList cs) root cs le_rfl

/-- One parent tree, crunched as `GetCallTree`'s per-root loop does it:
collapse, assign the root its self-percentage, annotate the children. -/
def crunchRoot (parent : PerfNode) : PerfNode :=
  let root := ComputeNodesCollapse parent
  let root1 := { root with pct := CalculateRootRelativePct root root }
  { root1 with children := CalculateTreeRelativePct root1 root1.children }

/-- The per-thread part of `cag::PerfTimer::GetCallTree`: crunch every
recorded root, then group the crunched roots by name and reduce each
group once (no recursive re-collapse after the root-level merge). -/
def GetCallTreeThread (roots : List PerfNode) : List PerfNode :=
  (ComputeTreeLevelMap (roots.map crunchRoot)).map ReduceChildren

/-- The global profiler state: `_scope_stack` and `_parents`, keyed by
thread id (modelled as `ℕ`).  The C++ `std::stack<PerfNode*>` always
holds the rightmost spine of the thread's most recent root (a push
always targets the most recently appended element), so it is modelled by
its depth. -/
structure ProfState where
  scopeStack : List (Nat × Nat)
  parents : List (Nat × List PerfNode)

def initState : ProfState := ⟨[], []⟩

/-- Update the value stored for key `k` in an association list. -/
def updateAssoc (k : Nat) (f : β → β) : List (Nat × β) → List (Nat × β)
  | [] => []
  | (k', v) :: rest =>
      if k' = k then (k', f v) :: rest else (k', v) :: updateAssoc k f rest

/-- Replace the last element of a list. -/
def modifyLast (f : α → α) : List α → List α
  | [] => []
  | [a] => [f a]
  | a :: b :: rest => a :: modifyLast f (b :: rest)

/-- Apply `f` to the node at depth `d` of the rightmost spine of the
forest (depth 1 is the last root, depth 2 its last child, ...).  This is
where the C++ `thread_stack.top()` pointer points when the stack has
size `d`. -/
def modifyAtDepth : Nat → (PerfNode → PerfNode) → List PerfNode → List PerfNode
  | 0, _, roots => roots
  | 1, f, roots => modifyLast f roots
  | d + 2, f, roots =>
      modifyLast (fun n => { n with children := modifyAtDepth (d + 1) f n.children }) roots

/-- `top->_children.emplace_back()`: append a value-initialised child. -/
def addChild (n : PerfNode) : PerfNode :=
  { n with children := n.children ++ [PerfNode.valueInit] }

/-- `PerfTimer::start` / `addLeaf` on thread `tid`: register the thread's
stack and parents entries if absent, then append a value-initialised
node as a new root (empty stack) or as a new child of the stack top, and
push it. -/
def applyStart (st : ProfState) (tid : Nat) : ProfState :=
  let st :=
    if (st.scopeStack.lookup tid).isNone then
      { scopeStack := st.scopeStack ++ [(tid, 0)],
        parents := st.parents ++ [(tid, [])] }
    else st
  let d := (st.scopeStack.lookup tid).getD 0
  if d = 0 then
    { scopeStack := updateAssoc tid (fun _ => 1) st.scopeStack,
      parents := updateAssoc tid (fun roots => roots ++ [PerfNode.valueInit]) st.parents }
  else
    { scopeStack := updateAssoc tid (fun _ => d + 1) st.scopeStack,
      parents := updateAssoc tid (modifyAtDepth d addChild) st.parents }

/-- The field assignment `stop` performs on the stack-top node: find the
granularity of the elapsed time, set value, nanos, the timer's scope
name, and indent = stack size − 1.  The children are untouched. -/
def fillNode (name : String) (elapsed : Nat) (d : Nat) (n : PerfNode) : PerfNode :=
  { n with granularity := FindTimeGranularity elapsed,
           value := NanosToValue (FindTimeGranularity elapsed) elapsed,
           nanos := elapsed, name := name, indent := (d : Int) - 1 }

/-- `PerfTimer::stop` on thread `tid` with measured `elapsed` nanoseconds
and the timer's scope name.  Returns `none` where the C++ has undefined
behaviour: `top()`/`pop()` on a registered but empty per-thread stack
(the code only guards the registry being empty or the thread being
unregistered). -/
def applyStop (st : ProfState) (tid : Nat) (name : String) (elapsed : Nat) :
    Option ProfState :=
  if st.scopeStack.isEmpty then some st
  else
    match st.scopeStack.lookup tid with
    | none => some st
    | some d =>
      if d = 0 then none
      else
        some { scopeStack := updateAssoc tid (fun _ => d - 1) st.scopeStack,
               parents := updateAssoc tid (modifyAtDepth d (fillNode name elapsed d)) st.parents }

/-- `cag::PerfTimer::ResetCounters`: clear both registries. -/
def ResetCounters (_ : ProfState) : ProfState := initState

/-- `cag::PerfTimer::GetCallTree`: the snapshot forest, one entry per
registered thread. -/
def GetCallTree (st : ProfState) : List (Nat × List PerfNode) :=
  if st.parents.isEmpty then []
  else st.parents.map (fun p => (p.1, GetCallTreeThread p.2))

/-- One profiling event; `stop` carries the elapsed time the
high-resolution clock would report (the clock's nondeterminism is an
input of the model) and the stopping timer's scope name. -/
inductive Event where
  | start (tid : Nat)
  | stop (tid : Nat) (name : String) (elapsed : Nat)
  | reset

def step (st : ProfState) : Event → Option ProfState
  | .start tid => some (applyStart st tid)
  | .stop tid name elapsed => applyStop st tid name elapsed
  | .reset => some (ResetCounters st)

def run (es : List Event) : Option ProfState :=
  es.foldlM step initState

/-- Total number of recorded nodes across all threads. -/
def ProfState.recordedCount (st : ProfState) : Nat :=
  (st.parents.map (fun p => PerfNode.countList p.2)).sum

/-- Total number of nodes in a snapshot forest. -/
def forestCount (forest : List (Nat × List PerfNode)) : Nat :=
  (forest.map (fun p => PerfNode.countList p.2)).sum

def numStarts (es : List Event) : Nat :=
  (es.filter (fun e => match e with | .start _ => true | _ => false)).length

def numStops (es : List Event) : Nat :=
  (es.filter (fun e => match e with | .stop _ _ _ => true | _ => false)).length

/-- The C++ `std::stack<PerfNode*>` of a thread points along the rightmost
spine of that thread's roots vector; `hasSpine d roots` states that this
spine exists down to depth `d` (depth 1 = the last root, depth 2 = its
last child, ...). -/
def hasSpine : Nat → List PerfNode → Bool
  | 0, _ => true
  | d + 1, roots =>
    match roots.getLast? with
    | none => false
    | some n => hasSpine d n.children

/-- Well-nesting checker, tracking each thread's open-region depth with
the same bookkeeping `applyStart`/`applyStop` use on `_scope_stack`.
`strict = true` additionally demands that every started region is stopped
by the end (all depths return to zero); `strict = false` accepts any
legal prefix.  Resets and unmatched stops are rejected. -/
def wnGen (strict : Bool) : List (Nat × Nat) → List Event → Bool
  | m, [] => !strict || m.all (fun p => p.2 = 0)
  | m, .start tid :: rest =>
    let m1 := if (m.lookup tid).isNone then m ++ [(tid, 0)] else m
    let d := (m1.lookup tid).getD 0
    wnGen strict (updateAssoc tid (fun _ => d + 1) m1) rest
  | m, .stop tid _ _ :: rest =>
    (match m.lookup tid with
     | none => false
     | some d =>
       if d = 0 then false
       else wnGen strict (updateAssoc tid (fun _ => d - 1) m) rest)
  | _, .reset :: _ => false

/-- A complete well-nested start/stop trace (no resets, every stop
matching an open start on its thread, all regions closed at the end). -/
def wellNested (es : List Event) : Bool := wnGen true [] es

/-- A legal prefix of a well-nested trace (regions may still be open). -/
def validPrefix (es : List Event) : Bool := wnGen false [] es

def sumDepths (m : List (Nat × Nat)) : Nat := (m.map (fun p => p.2)).sum

theorem lookup_eq_none_iff (l : List (Nat × β)) (k : Nat) :
    l.lookup k = none ↔ k ∉ l.map Prod.fst := by
  induction l with
  | nil => simp [List.lookup]
  | cons a as ih =>
    by_cases h : k = a.1
    · simp [List.lookup, h]
    · have h' : (k == a.1) = false := by simp [h]
      simp [List.lookup, h', ih, h]

theorem lookup_isSome_of_mem_keys {l : List (Nat × β)} {k : Nat}
    (h : k ∈ l.map Prod.fst) : ∃ v, l.lookup k = some v := by
  cases hv : l.lookup k with
  | none => exact absurd h ((lookup_eq_none_iff l k).1 hv)
  | some v => exact ⟨v, rfl⟩

theorem updateAssoc_map_fst (k : Nat) (f : β → β) (l : List (Nat × β)) :
    (updateAssoc k f l).map Prod.fst = l.map Prod.fst := by
  induction l with
  | nil => rfl
  | cons a as ih =>
    cases a with
    | mk k' v =>
      by_cases h : k' = k <;> simp [updateAssoc, h, ih]

theorem lookup_updateAssoc_self (k : Nat) (f : β → β) (l : List (Nat × β)) :
    (updateAssoc k f l).lookup k = (l.lookup k).map f := by
  induction l with
  | nil => rfl
  | cons a as ih =>
    cases a with
    | mk k' v =>
      by_cases h : k' = k
      · simp [updateAssoc, h, List.lookup]
      · have h' : (k == k') = false := by simp [Ne.symm h]
        simp [updateAssoc, h, List.lookup, h', ih]

theorem lookup_updateAssoc_ne (k k' : Nat) (hne : k' ≠ k) (f : β → β)
    (l : List (Nat × β)) :
    (updateAssoc k f l).lookup k' = l.lookup k' := by
  induction l with
  | nil => rfl
  | cons a as ih =>
    cases a with
    | mk k0 v =>
      by_cases h : k0 = k
      · have h' : (k' == k0) = false := by simp [h, hne]
        have h'' : (k' == k) = false := by simp [hne]
        simp [updateAssoc, h, List.lookup, h', h'']
      · by_cases h2 : k' = k0 <;> simp [updateAssoc, h, List.lookup, h2, ih]

theorem lookup_append_self (l : List (Nat × β)) (k : Nat) (v : β)
    (h : l.lookup k = none) : (l ++ [(k, v)]).lookup k = some v := by
  induction l with
  | nil => simp [List.lookup]
  | cons a as ih =>
    cases a with
    | mk k0 w =>
      by_cases h2 : k = k0
      · simp [List.lookup, h2] at h
      · have h' : (k == k0) = false := by simp [h2]
        rw [List.cons_append]
        simp only [List.lookup, h'] at h ⊢
        exact ih h

theorem lookup_append_ne (l : List (Nat × β)) (k k' : Nat) (v : β)
    (hne : k' ≠ k) : (l ++ [(k, v)]).lookup k' = l.lookup k' := by
  induction l with
  | nil =>
    have h' : (k' == k) = false := by simp [hne]
    simp [List.lookup, h']
  | cons a as ih =>
    cases a with
    | mk k0 w =>
      by_cases h2 : k' = k0 <;> simp [List.lookup, h2, ih]

theorem sum_map_updateAssoc (g : β → Nat) (l : List (Nat × β)) (k : Nat)
    (f : β → β) (v : β) (hv : l.lookup k = some v) :
    ((updateAssoc k f l).map (fun p => g p.2)).sum + g v
      = (l.map (fun p => g p.2)).sum + g (f v) := by
  induction l with
  | nil => simp [List.lookup] at hv
  | cons a as ih =>
    cases a with
    | mk k0 w =>
      by_cases h : k0 = k
      · subst h
        simp [List.lookup] at hv
        subst hv
        simp [updateAssoc]
        omega
      · have h' : (k == k0) = false := by simp [Ne.symm h]
        simp [List.lookup, h'] at hv
        have hrec := ih hv
        simp [updateAssoc, h]
        omega

theorem sum_map_append_pair (g : β → Nat) (l : List (Nat × β)) (k : Nat) (v : β) :
    ((l ++ [(k, v)]).map (fun p => g p.2)).sum
      = (l.map (fun p => g p.2)).sum + g v := by
  simp

theorem modifyLast_getLastQ (f : α → α) :
    (l : List α) → (modifyLast f l).getLast? = l.getLast?.map f
  | [] => rfl
  | [a] => by simp [modifyLast]
  | a :: b :: rest => by
    have ih := modifyLast_getLastQ f (b :: rest)
    rw [modifyLast, List.getLast?_cons_cons, ← ih]
    cases hm : modifyLast f (b :: rest) with
    | nil => cases rest <;> simp [modifyLast] at hm
    | cons c cs => rw [List.getLast?_cons_cons]

theorem modifyLast_isEmpty (f : α → α) (l : List α) :
    (modifyLast f l).isEmpty = l.isEmpty := by
  cases l with
  | nil => rfl
  | cons a as => cases as <;> rfl

theorem modifyLast_countList (f : PerfNode → PerfNode) :
    ∀ (l : List PerfNode) (n : PerfNode), l.getLast? = some n →
      PerfNode.countList (modifyLast f l) + n.count
        = PerfNode.countList l + (f n).count := by
  intro l
  induction l with
  | nil => intro n h; simp at h
  | cons a as ih =>
    intro n h
    cases as with
    | nil =>
      simp at h
      subst h
      simp [modifyLast, PerfNode.countList]
      omega
    | cons b rest =>
      rw [List.getLast?_cons_cons] at h
      have hrec := ih n h
      rw [modifyLast]
      simp only [PerfNode.countList] at hrec ⊢
      omega

theorem countList_addChild (n : PerfNode) : (addChild n).count = n.count + 1 := by
  rw [addChild, PerfNode.count_eq, PerfNode.count_eq]
  simp [PerfNode.countList_append, PerfNode.countList, PerfNode.valueInit,
    PerfNode.count_eq]
  omega

theorem modifyAtDepth_countList_keep (f : PerfNode → PerfNode)
    (hf : ∀ n, (f n).count = n.count) :
    ∀ (d : Nat) (roots : List PerfNode),
      PerfNode.countList (modifyAtDepth d f roots) = PerfNode.countList roots := by
  intro d
  induction d using Nat.strong_induction_on with
  | _ d ih =>
    match d with
    | 0 => intro roots; rfl
    | 1 =>
      intro roots
      cases h : roots.getLast? with
      | none =>
        have : roots = [] := List.getLast?_eq_none_iff.1 h
        subst this; rfl
      | some n =>
        have := modifyLast_countList f roots n h
        rw [modifyAtDepth]
        rw [hf n] at this
        omega
    | d + 2 =>
      intro roots
      rw [modifyAtDepth]
      cases h : roots.getLast? with
      | none =>
        have : roots = [] := List.getLast?_eq_none_iff.1 h
        subst this; rfl
      | some n =>
        have hg : (({ n with children := modifyAtDepth (d + 1) f n.children } : PerfNode)).count
            = n.count := by
          rw [PerfNode.count_eq, PerfNode.count_eq]
          simp only []
          rw [ih (d + 1) (by omega) n.children]
        have := modifyLast_countList
          (fun n => { n with children := modifyAtDepth (d + 1) f n.children }) roots n h
        rw [hg] at this
        omega

theorem modifyAtDepth_hasSpine_keep (f : PerfNode → PerfNode)
    (hf : ∀ n, (f n).children = n.children) :
    ∀ (d d' : Nat) (roots : List PerfNode),
      hasSpine d' (modifyAtDepth d f roots) = hasSpine d' roots := by
  intro d
  induction d using Nat.strong_induction_on with
  | _ d ih =>
    match d with
    | 0 => intro d' roots; rfl
    | 1 =>
      intro d' roots
      match d' with
      | 0 => rfl
      | d' + 1 =>
        rw [modifyAtDepth, hasSpine, hasSpine, modifyLast_getLastQ]
        cases h : roots.getLast? with
        | none => rfl
        | some n => simp only [Option.map_some', hf n]
    | d + 2 =>
      intro d' roots
      match d' with
      | 0 => rfl
      | d' + 1 =>
        rw [modifyAtDepth, hasSpine, hasSpine, modifyLast_getLastQ]
        cases h : roots.getLast? with
        | none => rfl
        | some n =>
          simp only [Option.map_some']
          exact ih (d + 1) (by omega) d' n.children

theorem modifyAtDepth_addChild :
    ∀ (d : Nat) (roots : List PerfNode), 1 ≤ d → hasSpine d roots = true →
      PerfNode.countList (modifyAtDepth d addChild roots)
          = PerfNode.countList roots + 1
        ∧ hasSpine (d + 1) (modifyAtDepth d addChild roots) = true := by
  intro d
  induction d using Nat.strong_induction_on with
  | _ d ih =>
    match d with
    | 0 => intro roots h; omega
    | 1 =>
      intro roots _ hs
      rw [hasSpine] at hs
      cases hn : roots.getLast? with
      | none => rw [hn] at hs; simp at hs
      | some n =>
        constructor
        · have hml := modifyLast_countList addChild roots n hn
          rw [countList_addChild] at hml
          rw [modifyAtDepth]
          omega
        · rw [modifyAtDepth, hasSpine, modifyLast_getLastQ, hn]
          simp only [Option.map_some']
          rw [addChild]
          simp only []
          rw [hasSpine, List.getLast?_append]
          simp [hasSpine]
    | d + 2 =>
      intro roots _ hs
      rw [hasSpine] at hs
      cases h : roots.getLast? with
      | none => rw [h] at hs; simp at hs
      | some n =>
        rw [h] at hs
        have hrec := ih (d + 1) (by omega) n.children (by omega) hs
        constructor
        · rw [modifyAtDepth]
          have hg : (({ n with children := modifyAtDepth (d + 1) addChild n.children } : PerfNode)).count
              = n.count + 1 := by
            rw [PerfNode.count_eq, PerfNode.count_eq]
            simp only []
            rw [hrec.1]
            omega
          have hml := modifyLast_countList
            (fun n => { n with children := modifyAtDepth (d + 1) addChild n.children }) roots n h
          rw [hg] at hml
          omega
        · rw [modifyAtDepth, hasSpine, modifyLast_getLastQ, h]
          simp only [Option.map_some']
          exact hrec.2

theorem hasSpine_mono :
    ∀ (d : Nat) (roots : List PerfNode),
      hasSpine (d + 1) roots = true → hasSpine d roots = true := by
  intro d
  induction d with
  | zero => intro roots _; rfl
  | succ d ihd =>
    intro roots h
    rw [hasSpine] at h ⊢
    cases hl : roots.getLast? with
    | none => rw [hl] at h; exact h
    | some n => rw [hl] at h; exact ihd n.children h

theorem lookup_mem_keys {l : List (Nat × β)} {k : Nat} {v : β}
    (h : l.lookup k = some v) : k ∈ l.map Prod.fst := by
  by_contra hc
  rw [(lookup_eq_none_iff l k).2 hc] at h
  exact Option.noConfusion h

theorem countList_valueInit : PerfNode.countList [PerfNode.valueInit] = 1 := by
  simp [PerfNode.countList, PerfNode.valueInit, PerfNode.count_eq]

theorem numStarts_cons_start (tid : Nat) (es : List Event) :
    numStarts (.start tid :: es) = numStarts es + 1 := by
  simp [numStarts, List.filter]

theorem numStarts_cons_stop (tid : Nat) (name : String) (e : Nat) (es : List Event) :
    numStarts (.stop tid name e :: es) = numStarts es := by
  simp [numStarts, List.filter]

theorem numStops_cons_start (tid : Nat) (es : List Event) :
    numStops (.start tid :: es) = numStops es := by
  simp [numStops, List.filter]

theorem numStops_cons_stop (tid : Nat) (name : String) (e : Nat) (es : List Event) :
    numStops (.stop tid name e :: es) = numStops es + 1 := by
  simp [numStops, List.filter]

theorem applyStart_fresh (st : ProfState) (tid : Nat)
    (hreg : st.scopeStack.lookup tid = none) :
    applyStart st tid =
      ⟨updateAssoc tid (fun _ => 1) (st.scopeStack ++ [(tid, 0)]),
       updateAssoc tid (fun roots => roots ++ [PerfNode.valueInit])
         (st.parents ++ [(tid, [])])⟩ := by
  rw [applyStart]
  simp only [hreg, Option.isNone_none, if_true]
  rw [lookup_append_self st.scopeStack tid 0 hreg]
  simp

theorem applyStart_zero (st : ProfState) (tid : Nat)
    (hreg : st.scopeStack.lookup tid = some 0) :
    applyStart st tid =
      ⟨updateAssoc tid (fun _ => 1) st.scopeStack,
       updateAssoc tid (fun roots => roots ++ [PerfNode.valueInit]) st.parents⟩ := by
  rw [applyStart]
  simp [hreg]

theorem applyStart_deep (st : ProfState) (tid d : Nat)
    (hreg : st.scopeStack.lookup tid = some (d + 1)) :
    applyStart st tid =
      ⟨updateAssoc tid (fun _ => d + 2) st.scopeStack,
       updateAssoc tid (modifyAtDepth (d + 1) addChild) st.parents⟩ := by
  rw [applyStart]
  simp [hreg]

theorem applyStop_go (st : ProfState) (tid : Nat) (name : String)
    (elapsed : Nat) (d : Nat) (hreg : st.scopeStack.lookup tid = some (d + 1)) :
    applyStop st tid name elapsed =
      some ⟨updateAssoc tid (fun _ => d) st.scopeStack,
            updateAssoc tid (modifyAtDepth (d + 1) (fillNode name elapsed (d + 1)))
              st.parents⟩ := by
  have hne : st.scopeStack.isEmpty = false := by
    cases h : st.scopeStack with
    | nil => rw [h] at hreg; exact Option.noConfusion hreg
    | cons a as => rfl
  rw [applyStop]
  simp [hne, hreg]

theorem fillNode_count (name : String) (elapsed d : Nat) (n : PerfNode) :
    (fillNode name elapsed d n).count = n.count := by
  rw [fillNode, PerfNode.count_eq, PerfNode.count_eq]

theorem fillNode_children (name : String) (elapsed d : Nat) (n : PerfNode) :
    (fillNode name elapsed d n).children = n.children := rfl

/-- Number of nodes merged away for one thread's snapshot: the per-root
recursive collapse losses plus the root-level merge losses (each group of
`k` same-named crunched roots leaves one node). -/
def snapshotThreadLoss (roots : List PerfNode) : Nat :=
  (roots.map collapsedLoss).sum +
  ((ComputeTreeLevelMap (roots.map crunchRoot)).map (fun g => g.length - 1)).sum

/-- Total number of nodes merged away by `GetCallTree`. -/
def snapshotLoss (st : ProfState) : Nat :=
  (st.parents.map (fun p => snapshotThreadLoss p.2)).sum

theorem crunch_count (p : PerfNode) :
    (crunchRoot p).count = (ComputeNodesCollapse p).count := by
  unfold crunchRoot
  rw [PerfNode.count_eq, PerfNode.count_eq]
  simp [annotate_countList]

theorem thread_count (roots : List PerfNode) :
    PerfNode.countList (GetCallTreeThread roots) + snapshotThreadLoss roots
      = PerfNode.countList roots := by
  unfold GetCallTreeThread snapshotThreadLoss
  have hpoint1 : ∀ g ∈ ComputeTreeLevelMap (roots.map crunchRoot),
      (PerfNode.count ∘ ReduceChildren) g + (g.length - 1) = PerfNode.countList g := by
    intro g hg
    have h1 := ReduceChildren_count_add g
    have h2 := ComputeTreeLevelMap_mem_len hg
    simp only [Function.comp]
    omega
  have hsum1 := sum_map_add_of_pointwise (ComputeTreeLevelMap (roots.map crunchRoot))
      (PerfNode.count ∘ ReduceChildren) (fun g => g.length - 1) PerfNode.countList hpoint1
  rw [groups_countList_sum] at hsum1
  have h2 : PerfNode.countList ((ComputeTreeLevelMap (roots.map crunchRoot)).map ReduceChildren)
      = ((ComputeTreeLevelMap (roots.map crunchRoot)).map (PerfNode.count ∘ ReduceChildren)).sum := by
    rw [PerfNode.countList_eq, List.map_map]
  have hpoint2 : ∀ p ∈ roots,
      (PerfNode.count ∘ crunchRoot) p + collapsedLoss p = p.count := by
    intro p _
    simp only [Function.comp]
    rw [crunch_count]
    exact collapse_count p
  have hsum2 := sum_map_add_of_pointwise roots (PerfNode.count ∘ crunchRoot)
      collapsedLoss PerfNode.count hpoint2
  have h3 : PerfNode.countList (roots.map crunchRoot)
      = (roots.map (PerfNode.count ∘ crunchRoot)).sum := by
    rw [PerfNode.countList_eq, List.map_map]
  have h4 : PerfNode.countList roots = (roots.map PerfNode.count).sum :=
    PerfNode.countList_eq roots
  omega

theorem sumDepths_updateAssoc (m : List (Nat × Nat)) (k : Nat) (f : Nat → Nat)
    (v : Nat) (hv : m.lookup k = some v) :
    sumDepths (updateAssoc k f m) + v = sumDepths m + f v := by
  have h := sum_map_updateAssoc (fun x => x) m k f v hv
  simpa [sumDepths] using h

theorem sumDepths_append_zero (m : List (Nat × Nat)) (tid : Nat) :
    sumDepths (m ++ [(tid, 0)]) = sumDepths m := by
  simp [sumDepths]

/-- Execution of a legal trace from an invariant-satisfying state: the
trace runs without hitting undefined behaviour, every `start` adds
exactly one recorded node and every `stop` none, and the per-thread open
depths track starts minus stops. -/
theorem countList_nil : PerfNode.countList [] = 0 := rfl

theorem wnGen_run (strict : Bool) :
    ∀ (es : List Event) (st : ProfState),
      wnGen strict st.scopeStack es = true →
      st.scopeStack.map Prod.fst = st.parents.map Prod.fst →
      (∀ tid d roots, st.scopeStack.lookup tid = some d →
          st.parents.lookup tid = some roots → hasSpine d roots = true) →
      ∃ st' : ProfState, List.foldlM step st es = some st' ∧
        st'.recordedCount = st.recordedCount + numStarts es ∧
        sumDepths st'.scopeStack + numStops es
          = sumDepths st.scopeStack + numStarts es ∧
        (strict = true → st'.scopeStack.all (fun p => p.2 = 0) = true) := by
  intro es
  induction es with
  | nil =>
    intro st hw _ _
    refine ⟨st, rfl, by simp [numStarts], by simp [numStarts, numStops], ?_⟩
    intro hstrict
    subst hstrict
    rw [wnGen] at hw
    simpa using hw
  | cons e es ih =>
    intro st hw hkeys hspine
    cases e with
    | start tid =>
      rw [wnGen] at hw
      cases hreg : st.scopeStack.lookup tid with
      | none =>
        simp only [hreg, Option.isNone_none, if_true,
          lookup_append_self st.scopeStack tid 0 hreg, Option.getD_some,
          Nat.zero_add] at hw
        have hpn : st.parents.lookup tid = none := by
          apply (lookup_eq_none_iff _ _).2
          rw [← hkeys]
          exact (lookup_eq_none_iff _ _).1 hreg
        have hkeys' : (updateAssoc tid (fun _ => 1)
              (st.scopeStack ++ [(tid, 0)])).map Prod.fst
            = (updateAssoc tid (fun roots => roots ++ [PerfNode.valueInit])
                (st.parents ++ [(tid, [])])).map Prod.fst := by
          simp only [updateAssoc_map_fst, List.map_append, hkeys]
          rfl
        have hspine' : ∀ tid' d roots,
            (updateAssoc tid (fun _ => 1)
              (st.scopeStack ++ [(tid, 0)])).lookup tid' = some d →
            (updateAssoc tid (fun roots => roots ++ [PerfNode.valueInit])
              (st.parents ++ [(tid, [])])).lookup tid' = some roots →
            hasSpine d roots = true := by
          intro tid' d roots hs hp
          by_cases heq : tid' = tid
          · subst heq
            rw [lookup_updateAssoc_self,
              lookup_append_self st.scopeStack tid' 0 hreg] at hs
            rw [lookup_updateAssoc_self,
              lookup_append_self st.parents tid' [] hpn] at hp
            simp only [Option.map_some'] at hs hp
            cases hs; cases hp
            rfl
          · rw [lookup_updateAssoc_ne tid tid' heq,
              lookup_append_ne st.scopeStack tid tid' 0 heq] at hs
            rw [lookup_updateAssoc_ne tid tid' heq,
              lookup_append_ne st.parents tid tid' [] heq] at hp
            exact hspine tid' d roots hs hp
        rcases ih ⟨updateAssoc tid (fun _ => 1) (st.scopeStack ++ [(tid, 0)]),
            updateAssoc tid (fun roots => roots ++ [PerfNode.valueInit])
              (st.parents ++ [(tid, [])])⟩ hw hkeys' hspine'
          with ⟨st', hrun, hcnt, hdep, hstr⟩
        have hcountA : ((updateAssoc tid
              (fun roots => roots ++ [PerfNode.valueInit])
              (st.parents ++ [(tid, [])])).map
              (fun p => PerfNode.countList p.2)).sum
            = st.recordedCount + 1 := by
          have hv : (st.parents ++ [(tid, [])]).lookup tid = some [] :=
            lookup_append_self st.parents tid [] hpn
          have h1 := sum_map_updateAssoc PerfNode.countList
            (st.parents ++ [(tid, [])]) tid
            (fun roots => roots ++ [PerfNode.valueInit]) [] hv
          simp only [countList_nil, List.nil_append, countList_valueInit,
            Nat.add_zero] at h1
          have h2 : ((st.parents ++ [(tid, ([] : List PerfNode))]).map
              (fun p => PerfNode.countList p.2)).sum = st.recordedCount := by
            rw [List.map_append, List.sum_append, ProfState.recordedCount]
            simp [countList_nil]
          omega
        have hRC : (ProfState.mk
              (updateAssoc tid (fun _ => 1) (st.scopeStack ++ [(tid, 0)]))
              (updateAssoc tid (fun roots => roots ++ [PerfNode.valueInit])
                (st.parents ++ [(tid, [])]))).recordedCount
            = st.recordedCount + 1 := hcountA
        have hsumA : sumDepths (updateAssoc tid (fun _ => 1)
              (st.scopeStack ++ [(tid, 0)]))
            = sumDepths st.scopeStack + 1 := by
          have hv : (st.scopeStack ++ [(tid, 0)]).lookup tid = some 0 :=
            lookup_append_self st.scopeStack tid 0 hreg
          have h1 := sumDepths_updateAssoc (st.scopeStack ++ [(tid, 0)]) tid
            (fun _ => 1) 0 hv
          simp only [Nat.add_zero] at h1
          rw [sumDepths_append_zero] at h1
          omega
        have hSD : sumDepths (ProfState.mk
              (updateAssoc tid (fun _ => 1) (st.scopeStack ++ [(tid, 0)]))
              (updateAssoc tid (fun roots => roots ++ [PerfNode.valueInit])
                (st.parents ++ [(tid, [])]))).scopeStack
            = sumDepths st.scopeStack + 1 := hsumA
        have hstep : step st (Event.start tid) = some
            (ProfState.mk
              (updateAssoc tid (fun _ => 1) (st.scopeStack ++ [(tid, 0)]))
              (updateAssoc tid (fun roots => roots ++ [PerfNode.valueInit])
                (st.parents ++ [(tid, [])]))) := by
          simp only [step]
          rw [applyStart_fresh st tid hreg]
        refine ⟨st', ?_, ?_, ?_, hstr⟩
        · rw [List.foldlM_cons, hstep]
          exact hrun
        · rw [numStarts_cons_start]
          omega
        · rw [numStops_cons_start, numStarts_cons_start]
          omega
      | some d0 =>
        simp only [hreg, Option.isNone_some, Bool.false_eq_true, if_false,
          Option.getD_some] at hw
        have hpk : tid ∈ st.parents.map Prod.fst := by
          rw [← hkeys]; exact lookup_mem_keys hreg
        rcases lookup_isSome_of_mem_keys hpk with ⟨roots0, hroots0⟩
        have hkeys' : (updateAssoc tid (fun _ => d0 + 1) st.scopeStack).map Prod.fst
            = (updateAssoc tid
                (if d0 = 0 then (fun roots => roots ++ [PerfNode.valueInit])
                 else modifyAtDepth d0 addChild) st.parents).map Prod.fst := by
          simp only [updateAssoc_map_fst, hkeys]
        have hnewroots :
            hasSpine (d0 + 1)
              ((if d0 = 0 then (fun roots => roots ++ [PerfNode.valueInit])
                else modifyAtDepth d0 addChild) roots0) = true ∧
            PerfNode.countList
              ((if d0 = 0 then (fun roots => roots ++ [PerfNode.valueInit])
                else modifyAtDepth d0 addChild) roots0)
              = PerfNode.countList roots0 + 1 := by
          cases d0 with
          | zero =>
            refine ⟨?_, ?_⟩
            · rw [if_pos rfl]
              rw [hasSpine, List.getLast?_append]
              simp [hasSpine]
            · rw [if_pos rfl, PerfNode.countList_append, countList_valueInit]
          | succ d =>
            have hsp0 : hasSpine (d + 1) roots0 = true :=
              hspine tid (d + 1) roots0 hreg hroots0
            have hmod := modifyAtDepth_addChild (d + 1) roots0 (by omega) hsp0
            refine ⟨?_, ?_⟩
            · rw [if_neg (Nat.succ_ne_zero d)]
              exact hmod.2
            · rw [if_neg (Nat.succ_ne_zero d)]
              exact hmod.1
        have hspine' : ∀ tid' d roots,
            (updateAssoc tid (fun _ => d0 + 1) st.scopeStack).lookup tid' = some d →
            (updateAssoc tid
              (if d0 = 0 then (fun roots => roots ++ [PerfNode.valueInit])
               else modifyAtDepth d0 addChild) st.parents).lookup tid' = some roots →
            hasSpine d roots = true := by
          intro tid' d roots hs hp
          by_cases heq : tid' = tid
          · subst heq
            rw [lookup_updateAssoc_self, hreg] at hs
            rw [lookup_updateAssoc_self, hroots0] at hp
            simp only [Option.map_some'] at hs hp
            cases hs; cases hp
            exact hnewroots.1
          · rw [lookup_updateAssoc_ne tid tid' heq] at hs
            rw [lookup_updateAssoc_ne tid tid' heq] at hp
            exact hspine tid' d roots hs hp
        have hwA : wnGen strict
            (updateAssoc tid (fun _ => d0 + 1) st.scopeStack) es = true := hw
        rcases ih ⟨updateAssoc tid (fun _ => d0 + 1) st.scopeStack,
            updateAssoc tid
              (if d0 = 0 then (fun roots => roots ++ [PerfNode.valueInit])
               else modifyAtDepth d0 addChild) st.parents⟩ hwA hkeys' hspine'
          with ⟨st', hrun, hcnt, hdep, hstr⟩
        have hcountA : ((updateAssoc tid
              (if d0 = 0 then (fun roots => roots ++ [PerfNode.valueInit])
               else modifyAtDepth d0 addChild) st.parents).map
              (fun p => PerfNode.countList p.2)).sum
            = st.recordedCount + 1 := by
          have h1 := sum_map_updateAssoc PerfNode.countList st.parents tid
            (if d0 = 0 then (fun roots => roots ++ [PerfNode.valueInit])
             else modifyAtDepth d0 addChild) roots0 hroots0
          rw [hnewroots.2] at h1
          rw [ProfState.recordedCount]
          omega
        have hRC : (ProfState.mk
              (updateAssoc tid (fun _ => d0 + 1) st.scopeStack)
              (updateAssoc tid
                (if d0 = 0 then (fun roots => roots ++ [PerfNode.valueInit])
                 else modifyAtDepth d0 addChild) st.parents)).recordedCount
            = st.recordedCount + 1 := hcountA
        have hsumA : sumDepths (updateAssoc tid (fun _ => d0 + 1) st.scopeStack)
            = sumDepths st.scopeStack + 1 := by
          have h1 := sumDepths_updateAssoc st.scopeStack tid
            (fun _ => d0 + 1) d0 hreg
          simp only [] at h1
          omega
        have hSD : sumDepths (ProfState.mk
              (updateAssoc tid (fun _ => d0 + 1) st.scopeStack)
              (updateAssoc tid
                (if d0 = 0 then (fun roots => roots ++ [PerfNode.valueInit])
                 else modifyAtDepth d0 addChild) st.parents)).scopeStack
            = sumDepths st.scopeStack + 1 := hsumA
        have hstep : step st (Event.start tid) = some
            (ProfState.mk
              (updateAssoc tid (fun _ => d0 + 1) st.scopeStack)
              (updateAssoc tid
                (if d0 = 0 then (fun roots => roots ++ [PerfNode.valueInit])
                 else modifyAtDepth d0 addChild) st.parents)) := by
          cases d0 with
          | zero =>
            simp only [step]
            rw [applyStart_zero st tid hreg]
            simp
          | succ d =>
            simp only [step]
            rw [applyStart_deep st tid d hreg]
            rw [if_neg (Nat.succ_ne_zero d)]
        refine ⟨st', ?_, ?_, ?_, hstr⟩
        · rw [List.foldlM_cons, hstep]
          exact hrun
        · rw [numStarts_cons_start]
          omega
        · rw [numStops_cons_start, numStarts_cons_start]
          omega
    | stop tid name elapsed =>
      rw [wnGen] at hw
      cases hreg : st.scopeStack.lookup tid with
      | none => rw [hreg] at hw; exact absurd hw (by simp)
      | some d0 =>
        rw [hreg] at hw
        cases d0 with
        | zero => simp at hw
        | succ d =>
          replace hw : (if d + 1 = 0 then false
              else wnGen strict (updateAssoc tid (fun _ => d + 1 - 1) st.scopeStack) es)
                = true := hw
          rw [if_neg (Nat.succ_ne_zero d)] at hw
          have hpk : tid ∈ st.parents.map Prod.fst := by
            rw [← hkeys]; exact lookup_mem_keys hreg
          rcases lookup_isSome_of_mem_keys hpk with ⟨roots0, hroots0⟩
          have hsp0 : hasSpine (d + 1) roots0 = true :=
            hspine tid (d + 1) roots0 hreg hroots0
          have hkeys' : (updateAssoc tid (fun _ => d + 1 - 1) st.scopeStack).map Prod.fst
              = (updateAssoc tid
                  (modifyAtDepth (d + 1) (fillNode name elapsed (d + 1)))
                  st.parents).map Prod.fst := by
            simp only [updateAssoc_map_fst, hkeys]
          have hspine' : ∀ tid' dd roots,
              (updateAssoc tid (fun _ => d + 1 - 1) st.scopeStack).lookup tid' = some dd →
              (updateAssoc tid
                (modifyAtDepth (d + 1) (fillNode name elapsed (d + 1)))
                st.parents).lookup tid' = some roots →
              hasSpine dd roots = true := by
            intro tid' dd roots hs hp
            by_cases heq : tid' = tid
            · subst heq
              rw [lookup_updateAssoc_self, hreg] at hs
              rw [lookup_updateAssoc_self, hroots0] at hp
              simp only [Option.map_some'] at hs hp
              cases hs; cases hp
              rw [modifyAtDepth_hasSpine_keep _
                (fillNode_children name elapsed (d + 1))]
              exact hasSpine_mono d roots0 hsp0
            · rw [lookup_updateAssoc_ne tid tid' heq] at hs
              rw [lookup_updateAssoc_ne tid tid' heq] at hp
              exact hspine tid' dd roots hs hp
          have hwA : wnGen strict
              (updateAssoc tid (fun _ => d + 1 - 1) st.scopeStack) es = true := hw
          rcases ih ⟨updateAssoc tid (fun _ => d + 1 - 1) st.scopeStack,
              updateAssoc tid
                (modifyAtDepth (d + 1) (fillNode name elapsed (d + 1)))
                st.parents⟩ hwA hkeys' hspine'
            with ⟨st', hrun, hcnt, hdep, hstr⟩
          have hcountA : ((updateAssoc tid
                (modifyAtDepth (d + 1) (fillNode name elapsed (d + 1)))
                st.parents).map (fun p => PerfNode.countList p.2)).sum
              = st.recordedCount := by
            have h1 := sum_map_updateAssoc PerfNode.countList st.parents tid
              (modifyAtDepth (d + 1) (fillNode name elapsed (d + 1))) roots0 hroots0
            rw [modifyAtDepth_countList_keep _
              (fillNode_count name elapsed (d + 1)) (d + 1) roots0] at h1
            rw [ProfState.recordedCount]
            omega
          have hRC : (ProfState.mk
                (updateAssoc tid (fun _ => d + 1 - 1) st.scopeStack)
                (updateAssoc tid
                  (modifyAtDepth (d + 1) (fillNode name elapsed (d + 1)))
                  st.parents)).recordedCount
              = st.recordedCount := hcountA
          have hsumA : sumDepths (updateAssoc tid (fun _ => d + 1 - 1) st.scopeStack) + 1
              = sumDepths st.scopeStack := by
            have h1 := sumDepths_updateAssoc st.scopeStack tid
              (fun _ => d + 1 - 1) (d + 1) hreg
            simp only [] at h1
            omega
          have hSD : sumDepths (ProfState.mk
                (updateAssoc tid (fun _ => d + 1 - 1) st.scopeStack)
                (updateAssoc tid
                  (modifyAtDepth (d + 1) (fillNode name elapsed (d + 1)))
                  st.parents)).scopeStack + 1
              = sumDepths st.scopeStack := hsumA
          have hstep : step st (Event.stop tid name elapsed) = some
              (ProfState.mk
                (updateAssoc tid (fun _ => d + 1 - 1) st.scopeStack)
                (updateAssoc tid
                  (modifyAtDepth (d + 1) (fillNode name elapsed (d + 1)))
                  st.parents)) := by
            simp only [step]
            rw [applyStop_go st tid name elapsed d hreg]
            rfl
          refine ⟨st', ?_, ?_, ?_, hstr⟩
          · rw [List.foldlM_cons, hstep]
            exact hrun
          · rw [numStarts_cons_stop]
            omega
          · rw [numStops_cons_stop, numStarts_cons_stop]
            omega
    | reset =>
      rw [wnGen] at hw
      exact absurd hw (by simp)

theorem sumDepths_zero_of_all {m : List (Nat × Nat)}
    (h : m.all (fun p => p.2 = 0) = true) : sumDepths m = 0 := by
  induction m with
  | nil => rfl
  | cons a as ih =>
    simp only [List.all_cons, Bool.and_eq_true, decide_eq_true_eq] at h
    have h2 := ih h.2
    simp only [sumDepths, List.map_cons, List.sum_cons] at *
    omega

theorem run_trace (strict : Bool) (es : List Event)
    (h : wnGen strict [] es = true) :
    ∃ st, run es = some st ∧ st.recordedCount = numStarts es ∧
      sumDepths st.scopeStack + numStops es = numStarts es ∧
      (strict = true → st.scopeStack.all (fun p => p.2 = 0) = true) := by
  have hspine0 : ∀ tid d roots, initState.scopeStack.lookup tid = some d →
      initState.parents.lookup tid = some roots → hasSpine d roots = true := by
    intro tid d roots hs _
    simp [initState, List.lookup] at hs
  rcases wnGen_run strict es initState h rfl hspine0 with ⟨st, hrun, hcnt, hdep, hstr⟩
  refine ⟨st, hrun, ?_, ?_, hstr⟩
  · simpa [initState, ProfState.recordedCount] using hcnt
  · simpa [initState, sumDepths] using hdep

theorem getCallTree_count (st : ProfState) :
    forestCount (GetCallTree st) + snapshotLoss st = st.recordedCount := by
  unfold GetCallTree forestCount snapshotLoss ProfState.recordedCount
  by_cases hp : st.parents.isEmpty
  · have : st.parents = [] := by
      cases h : st.parents with
      | nil => rfl
      | cons a as => rw [h] at hp; simp at hp
    simp [this]
  · rw [if_neg hp, List.map_map]
    apply sum_map_add_of_pointwise st.parents _ _ (fun p => PerfNode.countList p.2)
    intro p _
    simp only [Function.comp]
    exact thread_count p.2

end cag

namespace capi

open cag

/-- State of the C API layer: the core profiler state plus the
`perf_timers` map from handle to the created timer's data
(scope name = name + suffix, and the call-site line). -/
structure CApiState where
  prof : ProfState
  perfTimers : List (Nat × (String × Int))

/-- `stperf_StartProf`, parameterised by the implementation-defined
`std::hash<std::string>`.  Computes `sid = hash(name)`, builds the timer
with `isuffix = suffix ? suffix : ""`, `emplace`s it (no overwrite of an
existing handle), starts it on the calling thread, and returns `sid`. -/
def stperf_StartProf (hash : String → Nat) (st : CApiState) (tid : Nat)
    (name : String) (line : Int) (suffix : Option String) : Nat × CApiState :=
  let sid := hash name
  let isuffix := suffix.getD ""
  let timers :=
    if (st.perfTimers.lookup sid).isSome then st.perfTimers
    else st.perfTimers ++ [(sid, (name ++ isuffix, line))]
  (sid, { prof := applyStart st.prof tid, perfTimers := timers })

/-- `extern "C" struct stperf_PerfNode`, with the fixed
`char _name[128]` array modelled as a list of 128 bytes. -/
structure CPerfNode where
  granularity : Nat
  value : ℚ
  pct : ℚ
  nanos : Nat
  cname : List Nat
  indent : Int
  hits : Nat
  children : List CPerfNode

/-- Bytes of a region name (names are ASCII, so code points coincide
with the `c_str()` bytes). -/
def stringBytes (s : String) : List Nat := s.data.map Char.toNat

/-- The `_name` array produced by `ToCHeapNode`: the struct is
zero-initialised (`new stperf_PerfNode()`), then
`memcpy(_name, c_str, min(sizeof _name, size + 1))` copies
`min(128, length + 1)` bytes of the name including its terminator. -/
def cNameArray (bytes : List Nat) : List Nat :=
  let copied := min 128 (bytes.length + 1)
  ((bytes ++ [0]).take copied) ++ List.replicate (128 - copied) 0

/-- `ToCHeapNode`: deep copy of a `cag::PerfNode` into the C heap
representation. -/
def ToCHeapNode (node : PerfNode) : CPerfNode :=
  { granularity := node.granularity.toUnderlying
    value := node.value
    pct := node.pct
    nanos := node.nanos
    cname := cNameArray (stringBytes node.name)
    indent := node.indent
    hits := node.hits
    children := (node.children.attach.map (fun c => ToCHeapNode c.1)) }
termination_by node.count
decreasing_by
  have h1 := PerfNode.count_le_countList c.2
  have h2 := PerfNode.count_eq node
  omega

end capi

open cag capi

/-- C8: for every well-nested start/stop trace followed immediately by a
snapshot, the trace runs to completion and the snapshot forest's total
node count equals the number of stopped (start, stop) pairs issued minus
the number of nodes collapsed by same-name reduction. -/
theorem claim8_snapshot_count (es : List Event) (h : wellNested es = true) :
    ∃ st, run es = some st ∧
      forestCount (GetCallTree st) + snapshotLoss st = numStops es ∧
      forestCount (GetCallTree st) = numStops es - snapshotLoss st := by
  rcases run_trace true es h with ⟨st, hrun, hcnt, hdep, hstr⟩
  have hz := sumDepths_zero_of_all (hstr rfl)
  have hgc := getCallTree_count st
  exact ⟨st, hrun, by omega, by omega⟩

/-- Witness for C8 on a concrete well-nested trace: two top-level "g"
regions, each with one nested "f" region. -/
theorem claim8_witness :
    wellNested [Event.start 0, Event.start 0, Event.stop 0 "f" 5,
        Event.stop 0 "g" 9, Event.start 0, Event.start 0,
        Event.stop 0 "f" 7, Event.stop 0 "g" 11] = true ∧
    (∃ st, run [Event.start 0, Event.start 0, Event.stop 0 "f" 5,
        Event.stop 0 "g" 9, Event.start 0, Event.start 0,
        Event.stop 0 "f" 7, Event.stop 0 "g" 11] = some st ∧
      forestCount (GetCallTree st) + snapshotLoss st
        = numStops [Event.start 0, Event.start 0, Event.stop 0 "f" 5,
            Event.stop 0 "g" 9, Event.start 0, Event.start 0,
            Event.stop 0 "f" 7, Event.stop 0 "g" 11] ∧
      forestCount (GetCallTree st)
        = numStops [Event.start 0, Event.start 0, Event.stop 0 "f" 5,
            Event.stop 0 "g" 9, Event.start 0, Event.start 0,
            Event.stop 0 "f" 7, Event.stop 0 "g" 11] - snapshotLoss st) :=
  ⟨by decide, claim8_snapshot_count _ (by decide)⟩

/-- C1 counterexample: a region started and never stopped is not absent
from the snapshot.  After a single `start` with no `stop`, `GetCallTree`
already returns one node (the placeholder appended by `addLeaf` at start
time), although zero (start, stop) pairs completed. -/
theorem claim1_counterexample :
    (run [Event.start 0]).map (fun st => forestCount (GetCallTree st)) = some 1
      ∧ numStops [Event.start 0] = 0 := by
  have h1 : run [Event.start 0]
      = some ⟨[(0, 1)], [(0, [PerfNode.valueInit])]⟩ := rfl
  rw [h1, Option.map_some']
  refine ⟨?_, rfl⟩
  have h2 : ComputeNodesCollapse PerfNode.valueInit = PerfNode.valueInit := by
    rw [ComputeNodesCollapse_eq]; rfl
  have h3 : crunchRoot PerfNode.valueInit = PerfNode.valueInit := by
    rw [crunchRoot, h2, CalculateTreeRelativePct_eq]
    simp [CalculateRootRelativePct, NanosToValue, PerfNode.valueInit]
  have h4 : GetCallTree ⟨[(0, 1)], [(0, [PerfNode.valueInit])]⟩
      = [(0, GetCallTreeThread [PerfNode.valueInit])] := rfl
  rw [h4]
  have h5 : GetCallTreeThread [PerfNode.valueInit]
      = [ReduceChildren [PerfNode.valueInit]] := by
    rw [GetCallTreeThread,
      show [PerfNode.valueInit].map crunchRoot
        = [crunchRoot PerfNode.valueInit] from rfl, h3]
    rfl
  rw [h5]
  rfl

/-- C1 (amended): `addLeaf` appends the node at `start` time — to the
root list or to the parent's children — and `stop` only fills in its
fields; hence after any legal trace prefix the recorded-node count
equals the number of starts (not stops), and the snapshot contains a
node for every started region, including started-but-not-stopped ones. -/
theorem claim1_nodes_present_at_start (es : List Event)
    (h : validPrefix es = true) :
    ∃ st, run es = some st ∧
      st.recordedCount = numStarts es ∧
      forestCount (GetCallTree st) + snapshotLoss st = numStarts es := by
  rcases run_trace false es h with ⟨st, hrun, hcnt, _, _⟩
  refine ⟨st, hrun, hcnt, ?_⟩
  have hgc := getCallTree_count st
  omega

/-- Witness for the amended C1 at the concrete prefix `[start 0]`. -/
theorem claim1_witness :
    validPrefix [Event.start 0] = true ∧
    (∃ st, run [Event.start 0] = some st ∧
      st.recordedCount = numStarts [Event.start 0] ∧
      forestCount (GetCallTree st) + snapshotLoss st
        = numStarts [Event.start 0]) :=
  ⟨by decide, claim1_nodes_present_at_start _ (by decide)⟩

/-- Modelled from the spec for comparison in C4: "the coarser of the two
units", seconds coarser than milliseconds coarser than microseconds
coarser than nanoseconds — i.e. the unit with the larger nanosecond
count. -/
def coarserGranularity (g1 g2 : Granularity) : Granularity :=
  if g2.unitNanos ≤ g1.unitNanos then g1 else g2

/-- C4 counterexample: `FindCommonGranularity(S, NS)` evaluates to `NS`
(the max of the underlying enum values), but the coarser of seconds and
nanoseconds is seconds. -/
theorem claim4_counterexample :
    FindCommonGranularity Granularity.S Granularity.NS = Granularity.NS ∧
    coarserGranularity Granularity.S Granularity.NS = Granularity.S ∧
    Granularity.NS ≠ Granularity.S := by
  refine ⟨rfl, rfl, ?_⟩
  intro h
  exact Granularity.noConfusion h

/-- C4 (amended): `FindCommonGranularity` returns the *finer* of the two
units: the max of the underlying enum values (S=0, MS=1, US=2, NS=3,
larger value = smaller unit), equivalently the unit with the smaller
nanosecond count; the result is symmetric in its two arguments. -/
theorem claim4_finer_and_symmetric :
    ∀ g1 g2 : Granularity,
      FindCommonGranularity g1 g2 = FindCommonGranularity g2 g1 ∧
      (FindCommonGranularity g1 g2).toUnderlying
        = max g1.toUnderlying g2.toUnderlying ∧
      (FindCommonGranularity g1 g2).unitNanos
        = min g1.unitNanos g2.unitNanos := by
  intro g1 g2
  cases g1 <;> cases g2 <;> exact ⟨rfl, by decide, by decide⟩

/-- C6 counterexample: `stop` on a thread that is registered but has an
empty stack is not a silent no-op: it reaches `top()` on an empty stack
(undefined behaviour, modelled as `none`).  The trace
start; stop; stop aborts at the second stop. -/
theorem claim6_counterexample :
    run [Event.start 0, Event.stop 0 "f" 10, Event.stop 0 "g" 10] = none := rfl

/-- C6 (amended): `stop` returns silently, leaving the state unchanged,
when the global `_scope_stack` registry is empty or when the calling
thread has no registered stack.  `ResetCounters` empties both
registries, so a stop issued after a mid-region reset is a silent no-op
and an immediate snapshot returns an empty forest.  (A registered thread
whose own stack is empty is *not* guarded: that stop reaches `top()` on
an empty stack — undefined behaviour — rather than failing silently.) -/
theorem claim6_reset_makes_stop_noop (st : ProfState) (tid : Nat)
    (name : String) (elapsed : Nat) :
    (st.scopeStack = [] → applyStop st tid name elapsed = some st) ∧
    (st.scopeStack.lookup tid = none → applyStop st tid name elapsed = some st) ∧
    applyStop (ResetCounters st) tid name elapsed = some (ResetCounters st) ∧
    GetCallTree (ResetCounters st) = [] := by
  refine ⟨?_, ?_, rfl, rfl⟩
  · intro h
    rw [applyStop]
    simp [h]
  · intro h
    rw [applyStop]
    by_cases he : st.scopeStack.isEmpty
    · simp [he]
    · simp [he, h]

/-- Witness for C6 at a concrete reset-then-stop scenario. -/
theorem claim6_witness :
    (ProfState.mk [] [(0, [PerfNode.valueInit])]).scopeStack = [] ∧
    applyStop (ProfState.mk [] [(0, [PerfNode.valueInit])]) 0 "f" 10
      = some (ProfState.mk [] [(0, [PerfNode.valueInit])]) :=
  ⟨rfl, (claim6_reset_makes_stop_noop
    (ProfState.mk [] [(0, [PerfNode.valueInit])]) 0 "f" 10).1 rfl⟩

/-- C9: the handle returned by `stperf_StartProf` is the hash of the
region name alone: two calls with the same name return equal handles
regardless of state, calling thread, line and suffix arguments. -/
theorem claim9_handle_depends_only_on_name (hash : String → Nat)
    (st1 st2 : CApiState) (tid1 tid2 : Nat) (name : String)
    (line1 line2 : Int) (suffix1 suffix2 : Option String) :
    (stperf_StartProf hash st1 tid1 name line1 suffix1).1
      = (stperf_StartProf hash st2 tid2 name line2 suffix2).1 ∧
    (stperf_StartProf hash st1 tid1 name line1 suffix1).1 = hash name :=
  ⟨rfl, rfl⟩

theorem FindTimeGranularity_spec (t : Nat) :
    (1 ≤ NanosToValue (FindTimeGranularity t) t
      ∨ FindTimeGranularity t = Granularity.NS) ∧
    (∀ g' : Granularity, g'.toUnderlying < (FindTimeGranularity t).toUnderlying →
      NanosToValue g' t < 1) := by
  have hS : NanosToValue Granularity.S t = (t : ℚ) / 1000000000 := rfl
  have hMS : NanosToValue Granularity.MS t = (t : ℚ) / 1000000 := rfl
  have hUS : NanosToValue Granularity.US t = (t : ℚ) / 1000 := rfl
  rw [FindTimeGranularity]
  by_cases h1 : t / 1000000000 > 0
  · rw [if_pos h1]
    constructor
    · left
      rw [hS, one_le_div (by norm_num : (0:ℚ) < 1000000000)]
      exact_mod_cast (by omega : 1000000000 ≤ t)
    · intro g' hg'
      cases g' <;> simp [Granularity.toUnderlying] at hg'
  · rw [if_neg h1]
    by_cases h2 : t / 1000000 > 0
    · rw [if_pos h2]
      constructor
      · left
        rw [hMS, one_le_div (by norm_num : (0:ℚ) < 1000000)]
        exact_mod_cast (by omega : 1000000 ≤ t)
      · intro g' hg'
        cases g' <;> simp [Granularity.toUnderlying] at hg'
        rw [hS, div_lt_one (by norm_num : (0:ℚ) < 1000000000)]
        exact_mod_cast (by omega : t < 1000000000)
    · rw [if_neg h2]
      by_cases h3 : t / 1000 > 0
      · rw [if_pos h3]
        constructor
        · left
          rw [hUS, one_le_div (by norm_num : (0:ℚ) < 1000)]
          exact_mod_cast (by omega : 1000 ≤ t)
        · intro g' hg'
          cases g' <;> simp [Granularity.toUnderlying] at hg'
          · rw [hS, div_lt_one (by norm_num : (0:ℚ) < 1000000000)]
            exact_mod_cast (by omega : t < 1000000000)
          · rw [hMS, div_lt_one (by norm_num : (0:ℚ) < 1000000)]
            exact_mod_cast (by omega : t < 1000000)
      · rw [if_neg h3]
        refine ⟨Or.inr rfl, ?_⟩
        intro g' hg'
        cases g' <;> simp [Granularity.toUnderlying] at hg'
        · rw [hS, div_lt_one (by norm_num : (0:ℚ) < 1000000000)]
          exact_mod_cast (by omega : t < 1000000000)
        · rw [hMS, div_lt_one (by norm_num : (0:ℚ) < 1000000)]
          exact_mod_cast (by omega : t < 1000000)
        · rw [hUS, div_lt_one (by norm_num : (0:ℚ) < 1000)]
          exact_mod_cast (by omega : t < 1000)

/-- C7: the node `ReduceChildren` builds for a non-empty group of
same-named siblings has: duration = sum of the members' durations in
nanoseconds; occurrence count = group size; display unit and value
recomputed from the summed nanoseconds by the granularity resolver — the
coarsest unit in which the value stays at least 1 (every coarser unit
would put it below 1; nanoseconds is the fallback) — and children = the
concatenation of the members' children lists. -/
theorem claim7_reduce_group_fields (nodes : List PerfNode) (h : nodes ≠ []) :
    (ReduceChildren nodes).nanos = (nodes.map (·.nanos)).sum ∧
    (ReduceChildren nodes).hits = nodes.length ∧
    (ReduceChildren nodes).granularity
      = FindTimeGranularity ((nodes.map (·.nanos)).sum) ∧
    (ReduceChildren nodes).value
      = NanosToValue ((ReduceChildren nodes).granularity)
          ((ReduceChildren nodes).nanos) ∧
    (ReduceChildren nodes).children = (nodes.map (·.children)).flatten ∧
    (1 ≤ (ReduceChildren nodes).value
      ∨ (ReduceChildren nodes).granularity = Granularity.NS) ∧
    (∀ g' : Granularity,
      g'.toUnderlying < (ReduceChildren nodes).granularity.toUnderlying →
      NanosToValue g' ((ReduceChildren nodes).nanos) < 1) := by
  have hspec := FindTimeGranularity_spec ((nodes.map (·.nanos)).sum)
  exact ⟨rfl, rfl, rfl, rfl, rfl, hspec.1, hspec.2⟩

/-- Witness for C7 at a concrete two-member group. -/
theorem claim7_witness :
    ([PerfNode.valueInit, PerfNode.valueInit] ≠ []) ∧
    ((ReduceChildren [PerfNode.valueInit, PerfNode.valueInit]).nanos
        = ([PerfNode.valueInit, PerfNode.valueInit].map (·.nanos)).sum ∧
      (ReduceChildren [PerfNode.valueInit, PerfNode.valueInit]).hits
        = [PerfNode.valueInit, PerfNode.valueInit].length ∧
      (ReduceChildren [PerfNode.valueInit, PerfNode.valueInit]).granularity
        = FindTimeGranularity
            (([PerfNode.valueInit, PerfNode.valueInit].map (·.nanos)).sum) ∧
      (ReduceChildren [PerfNode.valueInit, PerfNode.valueInit]).value
        = NanosToValue
            ((ReduceChildren [PerfNode.valueInit, PerfNode.valueInit]).granularity)
            ((ReduceChildren [PerfNode.valueInit, PerfNode.valueInit]).nanos) ∧
      (ReduceChildren [PerfNode.valueInit, PerfNode.valueInit]).children
        = ([PerfNode.valueInit, PerfNode.valueInit].map (·.children)).flatten ∧
      (1 ≤ (ReduceChildren [PerfNode.valueInit, PerfNode.valueInit]).value
        ∨ (ReduceChildren [PerfNode.valueInit, PerfNode.valueInit]).granularity
            = Granularity.NS) ∧
      (∀ g' : Granularity,
        g'.toUnderlying
            < (ReduceChildren [PerfNode.valueInit, PerfNode.valueInit]).granularity.toUnderlying →
        NanosToValue g'
            ((ReduceChildren [PerfNode.valueInit, PerfNode.valueInit]).nanos) < 1)) :=
  ⟨by simp, claim7_reduce_group_fields [PerfNode.valueInit, PerfNode.valueInit] (by simp)⟩

theorem cNameArray_len (bytes : List Nat) : (cNameArray bytes).length = 128 := by
  rw [cNameArray]
  simp only [List.length_append, List.length_take, List.length_replicate]
  have h : min 128 (bytes.length + 1) ≤ bytes.length + 1 := Nat.min_le_right _ _
  simp only [List.length_append, List.length_cons, List.length_nil]
  omega

theorem cNameArray_short (bytes : List Nat) (h : bytes.length ≤ 127) :
    cNameArray bytes = bytes ++ 0 :: List.replicate (127 - bytes.length) 0 := by
  rw [cNameArray]
  have hm : min 128 (bytes.length + 1) = bytes.length + 1 := by omega
  rw [hm]
  rw [List.take_of_length_le (by simp)]
  have hr : 128 - (bytes.length + 1) = 127 - bytes.length := by omega
  rw [hr, List.append_assoc]
  rfl

theorem cNameArray_long (bytes : List Nat) (h : 128 ≤ bytes.length) :
    cNameArray bytes = bytes.take 128 := by
  rw [cNameArray]
  have hm : min 128 (bytes.length + 1) = 128 := by omega
  rw [hm]
  rw [List.take_append_eq_append_take]
  have h0 : 128 - bytes.length = 0 := by omega
  rw [h0]
  simp

set_option maxRecDepth 4096 in
/-- C10 counterexample: a node whose name is 128 characters long yields a
`_name` array holding 128 name bytes and no null terminator anywhere in
the array. -/
theorem claim10_counterexample :
    (0 : Nat) ∉ (ToCHeapNode
      { granularity := Granularity.S, value := 0, pct := 0, nanos := 0,
        name := String.mk (List.replicate 128 'a'), indent := 0,
        children := [], hits := 0 }).cname := by
  rw [ToCHeapNode]
  show (0 : Nat) ∉ cNameArray (stringBytes (String.mk (List.replicate 128 'a')))
  decide

/-- C10 (amended): the fixed `_name` array always holds exactly 128
bytes; a name of at most 127 bytes is copied whole including its
terminator (the zero-initialised remainder keeps the array
null-terminated); a name of 128 bytes or more is truncated to its first
128 bytes and the array then contains a null byte only if the name
itself does. -/
theorem claim10_name_array (node : PerfNode) :
    (ToCHeapNode node).cname.length = 128 ∧
    ((stringBytes node.name).length ≤ 127 →
      (ToCHeapNode node).cname
        = stringBytes node.name
            ++ 0 :: List.replicate (127 - (stringBytes node.name).length) 0) ∧
    (128 ≤ (stringBytes node.name).length →
      (ToCHeapNode node).cname = (stringBytes node.name).take 128) := by
  rw [ToCHeapNode]
  refine ⟨cNameArray_len _, ?_, ?_⟩
  · intro h
    exact cNameArray_short _ h
  · intro h
    exact cNameArray_long _ h

/-- Witness for C10 at a concrete short-named node. -/
theorem claim10_witness :
    (stringBytes "ab").length ≤ 127 ∧
    (ToCHeapNode
      { granularity := Granularity.S, value := 0, pct := 0, nanos := 0,
        name := "ab", indent := 0, children := [], hits := 0 }).cname
      = stringBytes "ab"
          ++ 0 :: List.replicate (127 - (stringBytes "ab").length) 0 :=
  ⟨by decide,
   (claim10_name_array
     { granularity := Granularity.S, value := 0, pct := 0, nanos := 0,
       name := "ab", indent := 0, children := [], hits := 0 }).2.1 (by decide)⟩

-- All-nodes predicate over a tree, by structural recursion (so that it
-- kernel-evaluates on concrete trees).
mutual

def treeAll (p : PerfNode → Bool) : PerfNode → Bool
  | ⟨g, v, pc, nn, nm, ind, cs, h⟩ =>
    p ⟨g, v, pc, nn, nm, ind, cs, h⟩ && treeAllList p cs

def treeAllList (p : PerfNode → Bool) : List PerfNode → Bool
  | [] => true
  | c :: cs => treeAll p c && treeAllList p cs

end

/-- All strict descendants of `n` satisfy `p`. -/
def subAll (p : PerfNode → Bool) (n : PerfNode) : Bool := treeAllList p n.children

/-- Every node's direct children have pairwise-distinct names. -/
def levelNodup (m : PerfNode) : Bool := decide ((m.children.map (·.name)).Nodup)

/-- No two same-named siblings anywhere in the tree. -/
def distinctSibs (n : PerfNode) : Bool := treeAll levelNodup n

/-- The node's display granularity and value are the ones the resolver
derives from its nanoseconds (true of every node `ReduceChildren`
built). -/
def nodeConsistent (n : PerfNode) : Bool :=
  decide (n.granularity = FindTimeGranularity n.nanos)
    && decide (n.value = NanosToValue n.granularity n.nanos)

-- A node's duration dominates the sum of its children's durations,
-- recursively (true of recordings made with a monotone clock).
mutual

def bounded : PerfNode → Bool
  | ⟨g, v, pc, nn, nm, ind, cs, h⟩ =>
    decide ((cs.map (·.nanos)).sum ≤ nn) && boundedList cs

def boundedList : List PerfNode → Bool
  | [] => true
  | c :: cs => bounded c && boundedList cs

end

theorem treeAll_eq (p : PerfNode → Bool) (n : PerfNode) :
    treeAll p n = (p n && treeAllList p n.children) := by
  cases n; rfl

theorem bounded_eq (n : PerfNode) :
    bounded n = (decide ((n.children.map (·.nanos)).sum ≤ n.nanos)
      && boundedList n.children) := by
  cases n; rfl

theorem treeAllList_mem {p : PerfNode → Bool} :
    ∀ {l : List PerfNode}, treeAllList p l = true →
      ∀ c ∈ l, treeAll p c = true := by
  intro l
  induction l with
  | nil => intro _ c hc; exact absurd hc (List.not_mem_nil c)
  | cons a as ih =>
    intro h c hc
    rw [treeAllList, Bool.and_eq_true] at h
    rcases List.mem_cons.1 hc with rfl | hc'
    · exact h.1
    · exact ih h.2 c hc'

theorem treeAllList_intro {p : PerfNode → Bool} :
    ∀ {l : List PerfNode}, (∀ c ∈ l, treeAll p c = true) →
      treeAllList p l = true := by
  intro l
  induction l with
  | nil => intro _; rfl
  | cons a as ih =>
    intro h
    rw [treeAllList, Bool.and_eq_true]
    exact ⟨h a (List.mem_cons_self a as), ih (fun c hc => h c (List.mem_cons_of_mem a hc))⟩

theorem boundedList_mem :
    ∀ {l : List PerfNode}, boundedList l = true →
      ∀ c ∈ l, bounded c = true := by
  intro l
  induction l with
  | nil => intro _ c hc; exact absurd hc (List.not_mem_nil c)
  | cons a as ih =>
    intro h c hc
    rw [boundedList, Bool.and_eq_true] at h
    rcases List.mem_cons.1 hc with rfl | hc'
    · exact h.1
    · exact ih h.2 c hc'

theorem boundedList_intro :
    ∀ {l : List PerfNode}, (∀ c ∈ l, bounded c = true) →
      boundedList l = true := by
  intro l
  induction l with
  | nil => intro _; rfl
  | cons a as ih =>
    intro h
    rw [boundedList, Bool.and_eq_true]
    exact ⟨h a (List.mem_cons_self a as), ih (fun c hc => h c (List.mem_cons_of_mem a hc))⟩

theorem treeAll_imp_bound (N : Nat) :
    ∀ (p q : PerfNode → Bool), (∀ m, p m = true → q m = true) →
      ∀ n : PerfNode, n.count ≤ N → treeAll p n = true → treeAll q n = true := by
  induction N with
  | zero =>
    intro p q hpq n hn
    exact absurd (Nat.lt_of_lt_of_le n.count_pos hn) (lt_irrefl 0)
  | succ N ih =>
    intro p q hpq n hn h
    rw [treeAll_eq, Bool.and_eq_true] at h ⊢
    refine ⟨hpq n h.1, treeAllList_intro ?_⟩
    intro c hc
    have hcle : c.count ≤ N := by
      have h1 := PerfNode.count_le_countList hc
      have h2 := PerfNode.count_eq n
      omega
    exact ih p q hpq c hcle (treeAllList_mem h.2 c hc)

theorem treeAll_imp (p q : PerfNode → Bool) (hpq : ∀ m, p m = true → q m = true)
    (n : PerfNode) (h : treeAll p n = true) : treeAll q n = true :=
  treeAll_imp_bound n.count p q hpq n le_rfl h

theorem collapse_name (root : PerfNode) :
    (ComputeNodesCollapse root).name = root.name := by
  rw [ComputeNodesCollapse_eq]
  by_cases hc : root.children.isEmpty <;> simp [hc]

theorem collapse_nanos (root : PerfNode) :
    (ComputeNodesCollapse root).nanos = root.nanos := by
  rw [ComputeNodesCollapse_eq]
  by_cases hc : root.children.isEmpty <;> simp [hc]

theorem collapse_granularity (root : PerfNode) :
    (ComputeNodesCollapse root).granularity = root.granularity := by
  rw [ComputeNodesCollapse_eq]
  by_cases hc : root.children.isEmpty <;> simp [hc]

theorem collapse_value (root : PerfNode) :
    (ComputeNodesCollapse root).value = root.value := by
  rw [ComputeNodesCollapse_eq]
  by_cases hc : root.children.isEmpty <;> simp [hc]

theorem collapse_pct (root : PerfNode) :
    (ComputeNodesCollapse root).pct = root.pct := by
  rw [ComputeNodesCollapse_eq]
  by_cases hc : root.children.isEmpty <;> simp [hc]

theorem collapse_hits (root : PerfNode) :
    (ComputeNodesCollapse root).hits = root.hits := by
  rw [ComputeNodesCollapse_eq]
  by_cases hc : root.children.isEmpty <;> simp [hc]

theorem filter_head_name {l : List PerfNode} {nm : String}
    (h : nm ∈ levelNames l) :
    ((l.filter (fun n => n.name = nm)).headD PerfNode.valueInit).name = nm := by
  have hne : l.filter (fun n => n.name = nm) ≠ [] :=
    ComputeTreeLevelMap_mem_ne_nil (List.mem_map.2 ⟨nm, h, rfl⟩)
  cases hf : l.filter (fun n => n.name = nm) with
  | nil => exact absurd hf hne
  | cons a as =>
    have ha : a ∈ l.filter (fun n => n.name = nm) := by
      rw [hf]; exact List.mem_cons_self a as
    have := List.of_mem_filter ha
    simp only [decide_eq_true_eq] at this
    simp [this]

theorem ReduceChildren_name {l : List PerfNode} {nm : String}
    (h : nm ∈ levelNames l) :
    (ReduceChildren (l.filter (fun n => n.name = nm))).name = nm := by
  rw [ReduceChildren]
  exact filter_head_name h

theorem groups_names (l : List PerfNode) (f : PerfNode → PerfNode)
    (hf : ∀ n, (f n).name = n.name) :
    (ComputeTreeLevelMap l).map (fun g => (f (ReduceChildren g)).name)
      = levelNames l := by
  rw [ComputeTreeLevelMap, List.map_map]
  have : ∀ nm ∈ levelNames l,
      ((fun g => (f (ReduceChildren g)).name) ∘
        (fun nm => l.filter (fun n => n.name = nm))) nm = nm := by
    intro nm hnm
    simp only [Function.comp]
    rw [hf, ReduceChildren_name hnm]
  calc (levelNames l).map _ = (levelNames l).map id := List.map_congr_left this
    _ = levelNames l := List.map_id _

theorem filter_name_eq_self :
    ∀ {l : List PerfNode}, (l.map (·.name)).Nodup →
      ∀ {x : PerfNode}, x ∈ l →
        l.filter (fun n => n.name = x.name) = [x] := by
  intro l
  induction l with
  | nil => intro _ x hx; exact absurd hx (List.not_mem_nil x)
  | cons a as ih =>
    intro hnd x hx
    rw [List.map_cons, List.nodup_cons] at hnd
    rcases List.mem_cons.1 hx with rfl | hx'
    · rw [List.filter_cons_of_pos (by simp)]
      have : as.filter (fun n => n.name = x.name) = [] := by
        rw [List.filter_eq_nil_iff]
        intro b hb
        simp only [decide_eq_true_eq]
        intro hbn
        exact hnd.1 (List.mem_map.2 ⟨b, hb, hbn⟩)
      rw [this]
    · have hne : ¬(a.name = x.name) := by
        intro hc
        exact hnd.1 (hc ▸ List.mem_map.2 ⟨x, hx', rfl⟩)
      rw [List.filter_cons_of_neg (by simpa using hne)]
      exact ih hnd.2 hx'

theorem ComputeTreeLevelMap_of_nodup {l : List PerfNode}
    (h : (l.map (·.name)).Nodup) :
    ComputeTreeLevelMap l = l.map (fun x => [x]) := by
  rw [ComputeTreeLevelMap, levelNames, List.dedup_eq_self.2 h, List.map_map]
  apply List.map_congr_left
  intro x hx
  simp only [Function.comp]
  exact filter_name_eq_self h hx

theorem ReduceChildren_singleton (c : PerfNode) :
    ReduceChildren [c]
      = { c with hits := 1, granularity := FindTimeGranularity c.nanos, value := NanosToValue (FindTimeGranularity c.nanos) c.nanos } := by
  cases c with
  | mk g v pc nn nm ind cs h =>
    simp [ReduceChildren]

theorem PerfNode.eta (c : PerfNode) :
    ({ granularity := c.granularity, value := c.value, pct := c.pct, nanos := c.nanos, name := c.name, indent := c.indent, children := c.children, hits := c.hits } : PerfNode) = c := by
  cases c; rfl

theorem isEmpty_false_ne_nil {l : List PerfNode} (h : ¬ l.isEmpty = true) :
    l ≠ [] := by
  cases l with
  | nil => simp at h
  | cons a as => simp

theorem collapse_shape_bound (N : Nat) : ∀ root : PerfNode, root.count ≤ N →
    distinctSibs (ComputeNodesCollapse root) = true ∧
    subAll nodeConsistent (ComputeNodesCollapse root) = true := by
  induction N with
  | zero =>
    intro root h
    exact absurd (Nat.lt_of_lt_of_le root.count_pos h) (lt_irrefl 0)
  | succ N ih =>
    intro root h
    rw [ComputeNodesCollapse_eq]
    by_cases hc : root.children.isEmpty
    · rw [if_pos hc]
      have hce : root.children = [] := by
        cases hcc : root.children with
        | nil => rfl
        | cons a as => rw [hcc] at hc; simp at hc
      constructor
      · rw [distinctSibs, treeAll_eq, Bool.and_eq_true, levelNodup, hce]
        exact ⟨by simp, rfl⟩
      · rw [subAll, hce]; rfl
    · rw [if_neg hc]
      have hxm : ∀ x ∈ (ComputeTreeLevelMap root.children).map
          (fun g => ComputeNodesCollapse (ReduceChildren g)),
          ∃ g ∈ ComputeTreeLevelMap root.children,
            x = ComputeNodesCollapse (ReduceChildren g) := by
        intro x hx
        rcases List.mem_map.1 hx with ⟨g, hg, rfl⟩
        exact ⟨g, hg, rfl⟩
      have hcle : ∀ g ∈ ComputeTreeLevelMap root.children,
          (ReduceChildren g).count ≤ N := by
        intro g hg
        have h1 := ReduceChildren_count_le hg
        have h2 := PerfNode.count_eq root
        omega
      constructor
      · rw [distinctSibs, treeAll_eq, Bool.and_eq_true]
        constructor
        · rw [levelNodup]
          simp only [List.map_map]
          have hns : ((ComputeTreeLevelMap root.children).map
              (fun g => (ComputeNodesCollapse (ReduceChildren g)).name))
              = levelNames root.children :=
            groups_names root.children ComputeNodesCollapse collapse_name
          rw [show ((ComputeTreeLevelMap root.children).map
              ((fun n => n.name) ∘ fun g => ComputeNodesCollapse (ReduceChildren g)))
              = ((ComputeTreeLevelMap root.children).map
                (fun g => (ComputeNodesCollapse (ReduceChildren g)).name)) from rfl]
          rw [hns]
          exact decide_eq_true (List.nodup_dedup _)
        · apply treeAllList_intro
          intro x hx
          rcases hxm x hx with ⟨g, hg, rfl⟩
          exact (ih (ReduceChildren g) (hcle g hg)).1
      · rw [subAll]
        apply treeAllList_intro
        intro x hx
        rcases hxm x hx with ⟨g, hg, rfl⟩
        rw [treeAll_eq, Bool.and_eq_true]
        constructor
        · rw [nodeConsistent, Bool.and_eq_true]
          constructor
          · apply decide_eq_true
            rw [collapse_granularity, collapse_nanos]
            rfl
          · apply decide_eq_true
            rw [collapse_value, collapse_granularity, collapse_nanos]
            rfl
        · exact (ih (ReduceChildren g) (hcle g hg)).2

theorem collapse_shape (root : PerfNode) :
    distinctSibs (ComputeNodesCollapse root) = true ∧
    subAll nodeConsistent (ComputeNodesCollapse root) = true :=
  collapse_shape_bound root.count root le_rfl

theorem collapse_fixed_bound (N : Nat) : ∀ n : PerfNode, n.count ≤ N →
    distinctSibs n = true → subAll nodeConsistent n = true →
    subAll (fun m => decide (m.hits = 1)) n = true →
    ComputeNodesCollapse n = n := by
  induction N with
  | zero =>
    intro n h
    exact absurd (Nat.lt_of_lt_of_le n.count_pos h) (lt_irrefl 0)
  | succ N ih =>
    intro n h hd hcons hh
    rw [ComputeNodesCollapse_eq]
    by_cases hc : n.children.isEmpty
    · rw [if_pos hc]
    · rw [if_neg hc]
      have hd' := hd
      rw [distinctSibs, treeAll_eq, Bool.and_eq_true] at hd'
      have hnd : (n.children.map (·.name)).Nodup := by
        have := hd'.1
        rw [levelNodup] at this
        exact of_decide_eq_true this
      rw [ComputeTreeLevelMap_of_nodup hnd, List.map_map]
      have hpt : ∀ c ∈ n.children,
          ((fun g => ComputeNodesCollapse (ReduceChildren g)) ∘ (fun x => [x])) c
            = id c := by
        intro c hcm
        simp only [Function.comp, id]
        rw [ReduceChildren_singleton]
        have hcons_c := treeAllList_mem hcons c hcm
        rw [treeAll_eq, Bool.and_eq_true] at hcons_c
        have hcc := hcons_c.1
        rw [nodeConsistent, Bool.and_eq_true] at hcc
        have hgran : c.granularity = FindTimeGranularity c.nanos :=
          of_decide_eq_true hcc.1
        have hval : c.value = NanosToValue c.granularity c.nanos :=
          of_decide_eq_true hcc.2
        have hh_c := treeAllList_mem hh c hcm
        rw [treeAll_eq, Bool.and_eq_true] at hh_c
        have hhits : c.hits = 1 := of_decide_eq_true hh_c.1
        have hceq : ({ c with hits := 1, granularity := FindTimeGranularity c.nanos, value := NanosToValue (FindTimeGranularity c.nanos) c.nanos } : PerfNode) = c := by
          rw [← hgran, ← hval, ← hhits]
          exact PerfNode.eta c
        rw [hceq]
        have hcle : c.count ≤ N := by
          have h1 := PerfNode.count_le_countList hcm
          have h2 := PerfNode.count_eq n
          omega
        have hd_c : distinctSibs c = true := treeAllList_mem hd'.2 c hcm
        have hcons_c' : subAll nodeConsistent c = true := hcons_c.2
        have hh_c' : subAll (fun m => decide (m.hits = 1)) c = true := hh_c.2
        exact ih c hcle hd_c hcons_c' hh_c'
      rw [List.map_congr_left hpt, List.map_id]
      exact PerfNode.eta n

theorem collapse_fixed (n : PerfNode)
    (hd : distinctSibs n = true) (hcons : subAll nodeConsistent n = true)
    (hh : subAll (fun m => decide (m.hits = 1)) n = true) :
    ComputeNodesCollapse n = n :=
  collapse_fixed_bound n.count n le_rfl hd hcons hh

/-- A tree with two same-named children, as recorded (hits 0, fields as
`stop` would leave them). -/
def claim2Tree : PerfNode :=
  { granularity := Granularity.NS, value := 100, pct := 0, nanos := 100, name := "r", indent := 0, children := [{ granularity := Granularity.NS, value := 30, pct := 0, nanos := 30, name := "a", indent := 0, children := [], hits := 0 }, { granularity := Granularity.NS, value := 20, pct := 0, nanos := 20, name := "a", indent := 0, children := [], hits := 0 }], hits := 0 }

/-- `claim2Tree` after one reduction: the two "a" children merged into
one with occurrence count 2. -/
def claim2Reduced : PerfNode :=
  { granularity := Granularity.NS, value := 100, pct := 0, nanos := 100, name := "r", indent := 0, children := [{ granularity := Granularity.NS, value := 50, pct := 0, nanos := 50, name := "a", indent := 0, children := [], hits := 2 }], hits := 0 }

/-- `claim2Tree` after two reductions: the singleton group resets the
merged child's occurrence count to 1. -/
def claim2Twice : PerfNode :=
  { granularity := Granularity.NS, value := 100, pct := 0, nanos := 100, name := "r", indent := 0, children := [{ granularity := Granularity.NS, value := 50, pct := 0, nanos := 50, name := "a", indent := 0, children := [], hits := 1 }], hits := 0 }

theorem claim2Tree_collapse : ComputeNodesCollapse claim2Tree = claim2Reduced := by
  rw [ComputeNodesCollapse_eq]
  simp [claim2Tree, claim2Reduced, ComputeTreeLevelMap, levelNames, ReduceChildren]
  rw [ComputeNodesCollapse_eq]
  simp [FindTimeGranularity, NanosToValue, Granularity.unitNanos]

theorem claim2Reduced_collapse :
    ComputeNodesCollapse claim2Reduced = claim2Twice := by
  rw [ComputeNodesCollapse_eq]
  simp [claim2Reduced, claim2Twice, ComputeTreeLevelMap, levelNames, ReduceChildren]
  rw [ComputeNodesCollapse_eq]
  simp [FindTimeGranularity, NanosToValue, Granularity.unitNanos]

/-- C2 counterexample: reduction is not idempotent.  Reducing the
already-reduced `claim2Reduced` (its "a" child carries occurrence count
2) resets that count to 1, because a singleton group still passes
through `ReduceChildren`, which sets `_hits = nodes.size() = 1`. -/
theorem claim2_counterexample :
    ComputeNodesCollapse (ComputeNodesCollapse claim2Tree)
      ≠ ComputeNodesCollapse claim2Tree := by
  rw [claim2Tree_collapse, claim2Reduced_collapse]
  intro h
  have : claim2Twice.children = claim2Reduced.children := by rw [h]
  simp [claim2Twice, claim2Reduced] at this

/-- C2 (amended): re-reduction leaves the tree shape and every field
except occurrence counts unchanged, and it is a fixed point exactly when
every merged group had size 1: for every tree `t`, if all strict
descendants of the reduced tree `ComputeNodesCollapse t` carry
occurrence count 1, then reducing again returns it unchanged. -/
theorem claim2_idempotent_when_hits_one (t : PerfNode)
    (h : subAll (fun m => decide (m.hits = 1)) (ComputeNodesCollapse t) = true) :
    ComputeNodesCollapse (ComputeNodesCollapse t) = ComputeNodesCollapse t :=
  collapse_fixed (ComputeNodesCollapse t) (collapse_shape t).1 (collapse_shape t).2 h

/-- Witness for the amended C2 at a concrete tree. -/
theorem claim2_witness :
    subAll (fun m => decide (m.hits = 1))
      (ComputeNodesCollapse PerfNode.valueInit) = true ∧
    ComputeNodesCollapse (ComputeNodesCollapse PerfNode.valueInit)
      = ComputeNodesCollapse PerfNode.valueInit := by
  have hcv : ComputeNodesCollapse PerfNode.valueInit = PerfNode.valueInit := by
    rw [ComputeNodesCollapse_eq]; rfl
  have hsub : subAll (fun m => decide (m.hits = 1))
      (ComputeNodesCollapse PerfNode.valueInit) = true := by
    rw [hcv]; rfl
  exact ⟨hsub, claim2_idempotent_when_hits_one PerfNode.valueInit hsub⟩

theorem annotate_names (root : PerfNode) (cs : List PerfNode) :
    (CalculateTreeRelativePct root cs).map (·.name) = cs.map (·.name) := by
  rw [CalculateTreeRelativePct_eq, List.map_map]
  apply List.map_congr_left
  intro c _
  rfl

theorem annotate_distinct_bound (N : Nat) : ∀ (root : PerfNode)
    (cs : List PerfNode), PerfNode.countList cs ≤ N →
    treeAllList levelNodup cs = true →
    treeAllList levelNodup (CalculateTreeRelativePct root cs) = true := by
  induction N with
  | zero =>
    intro root cs hle h
    cases cs with
    | nil => rw [CalculateTreeRelativePct_eq]; rfl
    | cons a as =>
      have := a.count_pos
      simp [PerfNode.countList] at hle
      omega
  | succ N ih =>
    intro root cs hle h
    rw [CalculateTreeRelativePct_eq]
    apply treeAllList_intro
    intro x hx
    rcases List.mem_map.1 hx with ⟨c, hc, rfl⟩
    have hcall := treeAllList_mem h c hc
    rw [treeAll_eq, Bool.and_eq_true] at hcall
    rw [treeAll_eq, Bool.and_eq_true]
    constructor
    · rw [levelNodup]
      have hch : ({ c with pct := CalculateRootRelativePct root c, children := CalculateTreeRelativePct root c.children } : PerfNode).children = CalculateTreeRelativePct root c.children := rfl
      rw [hch, annotate_names]
      rw [levelNodup] at hcall
      exact hcall.1
    · have hrec : PerfNode.countList c.children ≤ N := by
        have h1 := PerfNode.count_le_countList hc
        have h2 := PerfNode.count_eq c
        omega
      exact ih root c.children hrec hcall.2

theorem annotate_distinct (root : PerfNode) (cs : List PerfNode)
    (h : treeAllList levelNodup cs = true) :
    treeAllList levelNodup (CalculateTreeRelativePct root cs) = true :=
  annotate_distinct_bound (PerfNode.countList cs) root cs le_rfl h

theorem collapse_children_names (p : PerfNode) :
    (ComputeNodesCollapse p).children.map (·.name) = levelNames p.children := by
  rw [ComputeNodesCollapse_eq]
  by_cases hc : p.children.isEmpty
  · rw [if_pos hc]
    have hce : p.children = [] := by
      cases hcc : p.children with
      | nil => rfl
      | cons a as => rw [hcc] at hc; simp at hc
    rw [hce]; rfl
  · rw [if_neg hc]
    have : ({ p with children := ((ComputeTreeLevelMap p.children).map
        (fun g => ComputeNodesCollapse (ReduceChildren g))) } : PerfNode).children
        = ((ComputeTreeLevelMap p.children).map
            (fun g => ComputeNodesCollapse (ReduceChildren g))) := rfl
    rw [this, List.map_map]
    exact groups_names p.children ComputeNodesCollapse collapse_name

theorem crunchRoot_name (p : PerfNode) : (crunchRoot p).name = p.name :=
  collapse_name p

theorem crunchRoot_children_names (p : PerfNode) :
    (crunchRoot p).children.map (·.name) = levelNames p.children := by
  have h1 : (crunchRoot p).children
      = CalculateTreeRelativePct
          { ComputeNodesCollapse p with
              pct := CalculateRootRelativePct (ComputeNodesCollapse p)
                (ComputeNodesCollapse p) }
          (ComputeNodesCollapse p).children := rfl
  rw [h1, annotate_names]
  exact collapse_children_names p

theorem crunch_distinct (p : PerfNode) : distinctSibs (crunchRoot p) = true := by
  have hs := (collapse_shape p).1
  rw [distinctSibs, treeAll_eq, Bool.and_eq_true] at hs
  rw [distinctSibs, treeAll_eq, Bool.and_eq_true]
  have h1 : (crunchRoot p).children
      = CalculateTreeRelativePct
          { ComputeNodesCollapse p with
              pct := CalculateRootRelativePct (ComputeNodesCollapse p)
                (ComputeNodesCollapse p) }
          (ComputeNodesCollapse p).children := rfl
  constructor
  · rw [levelNodup, h1, annotate_names]
    rw [levelNodup] at hs
    exact hs.1
  · rw [h1]
    exact annotate_distinct _ _ hs.2

/-- C3: the per-thread snapshot merges same-named roots (so root names
are pairwise distinct in the forest) and every subtree hanging below a
merged root's direct children has pairwise-distinct sibling names at
every level; but the merged root's own children list is the concatenation
of the members' children and is not re-merged. -/
theorem claim3_root_merge_shape (roots : List PerfNode) :
    ((GetCallTreeThread roots).map (·.name)).Nodup ∧
    (∀ t ∈ GetCallTreeThread roots, ∀ c ∈ t.children, distinctSibs c = true) := by
  constructor
  · rw [GetCallTreeThread, List.map_map]
    have h := groups_names (roots.map crunchRoot) id (fun _ => rfl)
    have h2 : ((ComputeTreeLevelMap (roots.map crunchRoot)).map
        ((fun n => n.name) ∘ ReduceChildren))
        = levelNames (roots.map crunchRoot) := by
      rw [← h]
      apply List.map_congr_left
      intro g _
      rfl
    rw [show ((ComputeTreeLevelMap (roots.map crunchRoot)).map
        ((fun x => x.name) ∘ ReduceChildren))
        = ((ComputeTreeLevelMap (roots.map crunchRoot)).map
            ((fun n => n.name) ∘ ReduceChildren)) from rfl]
    rw [h2]
    exact List.nodup_dedup _
  · intro t ht c hc
    rw [GetCallTreeThread] at ht
    rcases List.mem_map.1 ht with ⟨g, hg, rfl⟩
    have hflat : c ∈ (g.map (·.children)).flatten := hc
    rcases List.mem_flatten.1 hflat with ⟨cl, hcl, hcm⟩
    rcases List.mem_map.1 hcl with ⟨m, hm, rfl⟩
    have hmc : m ∈ roots.map crunchRoot := by
      rcases List.mem_map.1 hg with ⟨nm, _, rfl⟩
      exact List.mem_of_mem_filter hm
    rcases List.mem_map.1 hmc with ⟨p, _, rfl⟩
    have hds := crunch_distinct p
    rw [distinctSibs, treeAll_eq, Bool.and_eq_true] at hds
    exact treeAllList_mem hds.2 c hcm

/-- Two recorded roots with the same name "main", each with one child
named "f". -/
def claim3Root1 : PerfNode :=
  { granularity := Granularity.NS, value := 30, pct := 0, nanos := 30, name := "main", indent := 0, children := [{ granularity := Granularity.NS, value := 10, pct := 0, nanos := 10, name := "f", indent := 1, children := [], hits := 0 }], hits := 0 }

def claim3Root2 : PerfNode :=
  { granularity := Granularity.NS, value := 20, pct := 0, nanos := 20, name := "main", indent := 0, children := [{ granularity := Granularity.NS, value := 5, pct := 0, nanos := 5, name := "f", indent := 1, children := [], hits := 0 }], hits := 0 }

/-- C3 counterexample: merging the two same-named roots concatenates
their children without re-merging, so the single merged root has two
direct children both named "f" — same-named siblings in the returned
forest. -/
theorem claim3_counterexample :
    (GetCallTreeThread [claim3Root1, claim3Root2]).map
        (fun t => t.children.map (·.name)) = [["f", "f"]] ∧
    ¬ (["f", "f"] : List String).Nodup := by
  refine ⟨?_, by decide⟩
  have hn1 : (crunchRoot claim3Root1).name = "main" := crunchRoot_name claim3Root1
  have hn2 : (crunchRoot claim3Root2).name = "main" := crunchRoot_name claim3Root2
  have hc1 : (crunchRoot claim3Root1).children.map (·.name) = ["f"] := by
    rw [crunchRoot_children_names]
    rfl
  have hc2 : (crunchRoot claim3Root2).children.map (·.name) = ["f"] := by
    rw [crunchRoot_children_names]
    rfl
  rw [GetCallTreeThread]
  have hmap : [claim3Root1, claim3Root2].map crunchRoot
      = [crunchRoot claim3Root1, crunchRoot claim3Root2] := rfl
  rw [hmap]
  have hlevel : ComputeTreeLevelMap [crunchRoot claim3Root1, crunchRoot claim3Root2]
      = [[crunchRoot claim3Root1, crunchRoot claim3Root2]] := by
    rw [ComputeTreeLevelMap, levelNames]
    have hnames : ([crunchRoot claim3Root1, crunchRoot claim3Root2].map (·.name))
        = ["main", "main"] := by
      rw [List.map_cons, List.map_cons, List.map_nil, hn1, hn2]
    rw [hnames]
    have hdedup : (["main", "main"] : List String).dedup = ["main"] := by decide
    rw [hdedup]
    rw [List.map_cons, List.map_nil]
    rw [List.filter_cons_of_pos (by simp [hn1]), List.filter_cons_of_pos (by simp [hn2])]
    rfl
  rw [hlevel]
  rw [List.map_cons, List.map_nil, List.map_cons, List.map_nil]
  have hred : (ReduceChildren [crunchRoot claim3Root1, crunchRoot claim3Root2]).children
      = (crunchRoot claim3Root1).children ++ (crunchRoot claim3Root2).children := by
    rw [ReduceChildren]
    simp
  rw [hred, List.map_append, hc1, hc2]
  rfl

theorem sum_map_le_sum_map (l : List α) (f g : α → Nat)
    (h : ∀ x ∈ l, f x ≤ g x) : (l.map f).sum ≤ (l.map g).sum := by
  induction l with
  | nil => simp
  | cons a as ih =>
    have ha := h a (List.mem_cons_self a as)
    have hrest := ih (fun x hx => h x (List.mem_cons_of_mem a hx))
    simp only [List.map_cons, List.sum_cons]
    omega

theorem mem_le_sum_map (l : List α) (f : α → Nat) {x : α} (hx : x ∈ l) :
    f x ≤ (l.map f).sum := by
  induction l with
  | nil => exact absurd hx (List.not_mem_nil x)
  | cons a as ih =>
    simp only [List.map_cons, List.sum_cons]
    rcases List.mem_cons.1 hx with rfl | hx'
    · omega
    · have := ih hx'
      omega

theorem sum_map_flatten (L : List (List α)) (f : α → Nat) :
    ((L.flatten).map f).sum = (L.map (fun l => (l.map f).sum)).sum := by
  induction L with
  | nil => rfl
  | cons l ls ih =>
    simp only [List.flatten, List.map_append, List.sum_append, List.map_cons,
      List.sum_cons, ih]

theorem CalculateRootRelativePct_ratio (r n : PerfNode) :
    CalculateRootRelativePct r n = (n.nanos : ℚ) / (r.nanos : ℚ) := by
  rw [CalculateRootRelativePct, NanosToValue, NanosToValue]
  have hu : (0:ℚ)
      < ((FindCommonGranularity n.granularity r.granularity).unitNanos : ℚ) := by
    cases FindCommonGranularity n.granularity r.granularity <;>
      norm_num [Granularity.unitNanos]
  by_cases hb : (r.nanos : ℚ) = 0
  · rw [hb]
    simp
  · field_simp

theorem crunchRoot_nanos (p : PerfNode) : (crunchRoot p).nanos = p.nanos :=
  collapse_nanos p

theorem crunchRoot_pct (p : PerfNode) :
    (crunchRoot p).pct
      = CalculateRootRelativePct (ComputeNodesCollapse p) (ComputeNodesCollapse p) := rfl

theorem collapse_bounded_bound (N : Nat) : ∀ root : PerfNode, root.count ≤ N →
    bounded root = true → bounded (ComputeNodesCollapse root) = true := by
  induction N with
  | zero =>
    intro root h
    exact absurd (Nat.lt_of_lt_of_le root.count_pos h) (lt_irrefl 0)
  | succ N ih =>
    intro root h hb
    rw [ComputeNodesCollapse_eq]
    by_cases hc : root.children.isEmpty
    · rw [if_pos hc]; exact hb
    · rw [if_neg hc]
      rw [bounded_eq] at hb
      rw [Bool.and_eq_true] at hb
      have hbhead : (root.children.map (·.nanos)).sum ≤ root.nanos :=
        of_decide_eq_true hb.1
      rw [bounded_eq, Bool.and_eq_true]
      have hch : (({ root with children := ((ComputeTreeLevelMap root.children).map (fun g => ComputeNodesCollapse (ReduceChildren g))) } : PerfNode)).children = ((ComputeTreeLevelMap root.children).map (fun g => ComputeNodesCollapse (ReduceChildren g))) := rfl
      have hnn : (({ root with children := ((ComputeTreeLevelMap root.children).map (fun g => ComputeNodesCollapse (ReduceChildren g))) } : PerfNode)).nanos = root.nanos := rfl
      constructor
      · apply decide_eq_true
        rw [hch, hnn, List.map_map]
        have hpt : ∀ g ∈ ComputeTreeLevelMap root.children,
            ((fun n => n.nanos) ∘ fun g => ComputeNodesCollapse (ReduceChildren g)) g
              = (g.map (·.nanos)).sum := by
          intro g _
          simp only [Function.comp]
          rw [collapse_nanos]
          rfl
        rw [List.map_congr_left hpt, groups_nanos_sum]
        exact hbhead
      · rw [hch]
        apply boundedList_intro
        intro x hx
        rcases List.mem_map.1 hx with ⟨g, hg, rfl⟩
        have hmemg : ∀ m ∈ g, m ∈ root.children := by
          intro m hm
          rcases List.mem_map.1 hg with ⟨nm, _, rfl⟩
          exact List.mem_of_mem_filter hm
        have hbg : bounded (ReduceChildren g) = true := by
          rw [bounded_eq, Bool.and_eq_true]
          constructor
          · apply decide_eq_true
            have hrc : (ReduceChildren g).children = (g.map (·.children)).flatten := rfl
            have hrn : (ReduceChildren g).nanos = (g.map (·.nanos)).sum := rfl
            rw [hrc, hrn, sum_map_flatten, List.map_map]
            apply sum_map_le_sum_map
            intro m hm
            have hbm := boundedList_mem hb.2 m (hmemg m hm)
            rw [bounded_eq, Bool.and_eq_true] at hbm
            exact of_decide_eq_true hbm.1
          · have hrc : (ReduceChildren g).children = (g.map (·.children)).flatten := rfl
            rw [hrc]
            apply boundedList_intro
            intro c hcf
            rcases List.mem_flatten.1 hcf with ⟨cl, hcl, hcm⟩
            rcases List.mem_map.1 hcl with ⟨m, hm, rfl⟩
            have hbm := boundedList_mem hb.2 m (hmemg m hm)
            rw [bounded_eq, Bool.and_eq_true] at hbm
            exact boundedList_mem hbm.2 c hcm
        have hgle : (ReduceChildren g).count ≤ N := by
          have h1 := ReduceChildren_count_le hg
          have h2 := PerfNode.count_eq root
          omega
        exact ih (ReduceChildren g) hgle hbg

theorem collapse_bounded (root : PerfNode) (hb : bounded root = true) :
    bounded (ComputeNodesCollapse root) = true :=
  collapse_bounded_bound root.count root le_rfl hb

theorem bounded_desc_bound (N : Nat) : ∀ n : PerfNode, n.count ≤ N →
    bounded n = true →
    treeAll (fun m => decide (m.nanos ≤ n.nanos)) n = true := by
  induction N with
  | zero =>
    intro n h
    exact absurd (Nat.lt_of_lt_of_le n.count_pos h) (lt_irrefl 0)
  | succ N ih =>
    intro n h hb
    rw [bounded_eq, Bool.and_eq_true] at hb
    rw [treeAll_eq, Bool.and_eq_true]
    refine ⟨decide_eq_true le_rfl, treeAllList_intro ?_⟩
    intro c hc
    have hcle : c.count ≤ N := by
      have h1 := PerfNode.count_le_countList hc
      have h2 := PerfNode.count_eq n
      omega
    have hcb := boundedList_mem hb.2 c hc
    have hrec := ih c hcle hcb
    have hcn : c.nanos ≤ n.nanos := by
      have h1 : c.nanos ≤ (n.children.map (·.nanos)).sum :=
        mem_le_sum_map n.children (·.nanos) hc
      have h2 := of_decide_eq_true hb.1
      omega
    apply treeAll_imp (fun m => decide (m.nanos ≤ c.nanos))
      (fun m => decide (m.nanos ≤ n.nanos))
    · intro m hm
      apply decide_eq_true
      have := of_decide_eq_true hm
      omega
    · exact hrec

theorem bounded_desc (n : PerfNode) (hb : bounded n = true) :
    treeAll (fun m => decide (m.nanos ≤ n.nanos)) n = true :=
  bounded_desc_bound n.count n le_rfl hb

theorem annotate_pct_bounds_bound (N : Nat) : ∀ (R : Nat) (root : PerfNode),
    root.nanos = R → 0 < R → ∀ cs : List PerfNode, PerfNode.countList cs ≤ N →
    treeAllList (fun m => decide (m.nanos ≤ R)) cs = true →
    treeAllList (fun n => decide (n.pct = (n.nanos : ℚ) / (R : ℚ))
      && (decide ((0:ℚ) ≤ n.pct) && decide (n.pct ≤ (1:ℚ))))
      (CalculateTreeRelativePct root cs) = true := by
  induction N with
  | zero =>
    intro R root hR hRpos cs hle hb
    cases cs with
    | nil => rw [CalculateTreeRelativePct_eq]; rfl
    | cons a as =>
      have := a.count_pos
      simp [PerfNode.countList] at hle
      omega
  | succ N ih =>
    intro R root hR hRpos cs hle hb
    rw [CalculateTreeRelativePct_eq]
    apply treeAllList_intro
    intro x hx
    rcases List.mem_map.1 hx with ⟨c, hc, rfl⟩
    have hcb := treeAllList_mem hb c hc
    rw [treeAll_eq, Bool.and_eq_true] at hcb
    have hcnle : c.nanos ≤ R := of_decide_eq_true hcb.1
    rw [treeAll_eq, Bool.and_eq_true]
    constructor
    · have hxpct : ({ c with pct := CalculateRootRelativePct root c, children := CalculateTreeRelativePct root c.children } : PerfNode).pct = CalculateRootRelativePct root c := rfl
      have hxn : ({ c with pct := CalculateRootRelativePct root c, children := CalculateTreeRelativePct root c.children } : PerfNode).nanos = c.nanos := rfl
      rw [Bool.and_eq_true, Bool.and_eq_true]
      have hval : CalculateRootRelativePct root c = (c.nanos : ℚ) / (R : ℚ) := by
        rw [CalculateRootRelativePct_ratio, hR]
      refine ⟨decide_eq_true ?_, decide_eq_true ?_, decide_eq_true ?_⟩
      · rw [hxpct, hxn, hval]
      · rw [hxpct, hval]
        positivity
      · rw [hxpct, hval]
        rw [div_le_one (by exact_mod_cast hRpos)]
        exact_mod_cast hcnle
    · have hxch : ({ c with pct := CalculateRootRelativePct root c, children := CalculateTreeRelativePct root c.children } : PerfNode).children = CalculateTreeRelativePct root c.children := rfl
      rw [hxch]
      have hrec : PerfNode.countList c.children ≤ N := by
        have h1 := PerfNode.count_le_countList hc
        have h2 := PerfNode.count_eq c
        omega
      exact ih R root hR hRpos c.children hrec hcb.2

/-- C5 (amended): when each thread's recorded roots have pairwise-distinct
names (so the final root-level merge merges nothing), every root's
duration dominates its children's recursively, and every root has a
positive duration, each tree `t` of the per-thread snapshot satisfies: the
root's percentage is exactly 1, and every node's percentage equals its
duration divided by the tree root's duration — both converted to the
common granularity of the two nodes, which cancels — and lies in [0, 1].
When roots share names the root-level merge sums durations without
recomputing child percentages, and the equation fails
(see the counterexample). -/
theorem claim5_pct_correct_distinct_roots (roots : List PerfNode)
    (hnames : (roots.map (·.name)).Nodup)
    (hbounded : ∀ r ∈ roots, bounded r = true)
    (hpos : ∀ r ∈ roots, 0 < r.nanos) :
    ∀ t ∈ GetCallTreeThread roots,
      t.pct = 1 ∧
      treeAll (fun n => decide (n.pct = CalculateRootRelativePct t n)
        && (decide ((0:ℚ) ≤ n.pct) && decide (n.pct ≤ (1:ℚ)))) t = true := by
  intro t ht
  have hcn : ((roots.map crunchRoot).map (·.name)) = roots.map (·.name) := by
    rw [List.map_map]
    apply List.map_congr_left
    intro p _
    exact crunchRoot_name p
  have hnd : ((roots.map crunchRoot).map (·.name)).Nodup := by
    rw [hcn]; exact hnames
  rw [GetCallTreeThread, ComputeTreeLevelMap_of_nodup hnd, List.map_map] at ht
  rcases List.mem_map.1 ht with ⟨x, hx, rfl⟩
  rcases List.mem_map.1 hx with ⟨p, hp, rfl⟩
  simp only [Function.comp]
  have hbp := hbounded p hp
  have hpp := hpos p hp
  have hcb : bounded (ComputeNodesCollapse p) = true := collapse_bounded p hbp
  have hcn2 : (ComputeNodesCollapse p).nanos = p.nanos := collapse_nanos p
  have hTpct : (ReduceChildren [crunchRoot p]).pct = (crunchRoot p).pct := rfl
  have hTnanos : (ReduceChildren [crunchRoot p]).nanos = p.nanos := by
    have h1 : (ReduceChildren [crunchRoot p]).nanos
        = (crunchRoot p).nanos + 0 := rfl
    rw [h1, Nat.add_zero]
    exact crunchRoot_nanos p
  have hTchildren : (ReduceChildren [crunchRoot p]).children
      = (crunchRoot p).children := by
    have h1 : (ReduceChildren [crunchRoot p]).children
        = (crunchRoot p).children ++ [].flatten := rfl
    rw [h1]
    simp
  have hpnz : ((p.nanos : ℚ)) ≠ 0 := Nat.cast_ne_zero.2 (by omega)
  have hpct1 : (crunchRoot p).pct = 1 := by
    rw [crunchRoot_pct, CalculateRootRelativePct_ratio, hcn2, div_self hpnz]
  constructor
  · rw [hTpct]
    exact hpct1
  · rw [treeAll_eq, Bool.and_eq_true]
    constructor
    · rw [Bool.and_eq_true, Bool.and_eq_true]
      refine ⟨decide_eq_true ?_, decide_eq_true ?_, decide_eq_true ?_⟩
      · rw [hTpct, hpct1, CalculateRootRelativePct_ratio, hTnanos, div_self hpnz]
      · rw [hTpct, hpct1]
        norm_num
      · rw [hTpct, hpct1]
    · rw [hTchildren]
      have hchc : (crunchRoot p).children
          = CalculateTreeRelativePct
              { ComputeNodesCollapse p with
                  pct := CalculateRootRelativePct (ComputeNodesCollapse p)
                    (ComputeNodesCollapse p) }
              (ComputeNodesCollapse p).children := rfl
      rw [hchc]
      have hrootn : ({ ComputeNodesCollapse p with pct := CalculateRootRelativePct (ComputeNodesCollapse p) (ComputeNodesCollapse p) } : PerfNode).nanos = p.nanos := hcn2
      have hdesc := bounded_desc (ComputeNodesCollapse p) hcb
      rw [treeAll_eq, Bool.and_eq_true] at hdesc
      have hdesc2 : treeAllList (fun m => decide (m.nanos ≤ p.nanos))
          (ComputeNodesCollapse p).children := by
        apply treeAllList_intro
        intro c hcm
        apply treeAll_imp
          (fun m => decide (m.nanos ≤ (ComputeNodesCollapse p).nanos))
          (fun m => decide (m.nanos ≤ p.nanos))
        · intro m hm
          apply decide_eq_true
          have := of_decide_eq_true hm
          omega
        · exact treeAllList_mem hdesc.2 c hcm
      have hann := annotate_pct_bounds_bound
        (PerfNode.countList (ComputeNodesCollapse p).children) p.nanos
        { ComputeNodesCollapse p with
            pct := CalculateRootRelativePct (ComputeNodesCollapse p)
              (ComputeNodesCollapse p) }
        hrootn hpp (ComputeNodesCollapse p).children le_rfl hdesc2
      apply treeAllList_intro
      intro c hcm
      apply treeAll_imp
        (fun n => decide (n.pct = (n.nanos : ℚ) / ((p.nanos : Nat) : ℚ))
          && (decide ((0:ℚ) ≤ n.pct) && decide (n.pct ≤ (1:ℚ))))
      · intro m hm
        rw [Bool.and_eq_true, Bool.and_eq_true] at hm ⊢
        refine ⟨decide_eq_true ?_, hm.2⟩
        have h1 := of_decide_eq_true hm.1
        rw [CalculateRootRelativePct_ratio, hTnanos]
        exact h1
      · exact treeAllList_mem hann c hcm

/-- The collapsed forms of the two C3/C5 example roots and their fully
crunched (collapsed + percentage-annotated) forms, as concrete literals. -/
def claim5ColChild1 : PerfNode :=
  { granularity := Granularity.NS, value := 10, pct := 0, nanos := 10, name := "f", indent := 1, children := [], hits := 1 }

def claim5ColChild2 : PerfNode :=
  { granularity := Granularity.NS, value := 5, pct := 0, nanos := 5, name := "f", indent := 1, children := [], hits := 1 }

def claim5Col1 : PerfNode :=
  { granularity := Granularity.NS, value := 30, pct := 0, nanos := 30, name := "main", indent := 0, children := [claim5ColChild1], hits := 0 }

def claim5Col2 : PerfNode :=
  { granularity := Granularity.NS, value := 20, pct := 0, nanos := 20, name := "main", indent := 0, children := [claim5ColChild2], hits := 0 }

def claim5Crunched1 : PerfNode :=
  { granularity := Granularity.NS, value := 30, pct := 1, nanos := 30, name := "main", indent := 0, children := [{ granularity := Granularity.NS, value := 10, pct := 1/3, nanos := 10, name := "f", indent := 1, children := [], hits := 1 }], hits := 0 }

def claim5Crunched2 : PerfNode :=
  { granularity := Granularity.NS, value := 20, pct := 1, nanos := 20, name := "main", indent := 0, children := [{ granularity := Granularity.NS, value := 5, pct := 1/4, nanos := 5, name := "f", indent := 1, children := [], hits := 1 }], hits := 0 }

theorem claim5_collapse1 : ComputeNodesCollapse claim3Root1 = claim5Col1 := by
  rw [ComputeNodesCollapse_eq]
  rw [if_neg (show ¬ claim3Root1.children.isEmpty = true by decide)]
  have hlev : ComputeTreeLevelMap claim3Root1.children
      = [claim3Root1.children] := by decide
  rw [hlev, List.map_cons, List.map_nil]
  have hred : ReduceChildren claim3Root1.children = claim5ColChild1 := by
    rw [ReduceChildren]
    simp [claim3Root1, claim5ColChild1, FindTimeGranularity, NanosToValue,
      Granularity.unitNanos]
  rw [hred]
  rw [ComputeNodesCollapse_eq]
  rw [if_pos (show claim5ColChild1.children.isEmpty = true from rfl)]
  rfl

theorem claim5_collapse2 : ComputeNodesCollapse claim3Root2 = claim5Col2 := by
  rw [ComputeNodesCollapse_eq]
  rw [if_neg (show ¬ claim3Root2.children.isEmpty = true by decide)]
  have hlev : ComputeTreeLevelMap claim3Root2.children
      = [claim3Root2.children] := by decide
  rw [hlev, List.map_cons, List.map_nil]
  have hred : ReduceChildren claim3Root2.children = claim5ColChild2 := by
    rw [ReduceChildren]
    simp [claim3Root2, claim5ColChild2, FindTimeGranularity, NanosToValue,
      Granularity.unitNanos]
  rw [hred]
  rw [ComputeNodesCollapse_eq]
  rw [if_pos (show claim5ColChild2.children.isEmpty = true from rfl)]
  rfl

theorem claim5_crunch1 : crunchRoot claim3Root1 = claim5Crunched1 := by
  have hdef : crunchRoot claim3Root1
      = { ComputeNodesCollapse claim3Root1 with
            pct := CalculateRootRelativePct (ComputeNodesCollapse claim3Root1)
              (ComputeNodesCollapse claim3Root1),
            children := CalculateTreeRelativePct
              { ComputeNodesCollapse claim3Root1 with
                  pct := CalculateRootRelativePct
                    (ComputeNodesCollapse claim3Root1)
                    (ComputeNodesCollapse claim3Root1) }
              (ComputeNodesCollapse claim3Root1).children } := rfl
  rw [hdef, claim5_collapse1]
  have hpct : CalculateRootRelativePct claim5Col1 claim5Col1 = 1 := by
    rw [CalculateRootRelativePct_ratio]
    norm_num [claim5Col1]
  rw [hpct]
  have hch : claim5Col1.children = [claim5ColChild1] := rfl
  rw [hch]
  rw [CalculateTreeRelativePct_eq, List.map_cons, List.map_nil]
  have hch2 : claim5ColChild1.children = ([] : List PerfNode) := rfl
  rw [hch2, CalculateTreeRelativePct_eq, List.map_nil]
  have hcp : CalculateRootRelativePct ({ claim5Col1 with pct := 1 } : PerfNode)
      claim5ColChild1 = 1/3 := by
    rw [CalculateRootRelativePct_ratio]
    norm_num [claim5Col1, claim5ColChild1]
  rw [hcp]
  rfl

theorem claim5_crunch2 : crunchRoot claim3Root2 = claim5Crunched2 := by
  have hdef : crunchRoot claim3Root2
      = { ComputeNodesCollapse claim3Root2 with
            pct := CalculateRootRelativePct (ComputeNodesCollapse claim3Root2)
              (ComputeNodesCollapse claim3Root2),
            children := CalculateTreeRelativePct
              { ComputeNodesCollapse claim3Root2 with
                  pct := CalculateRootRelativePct
                    (ComputeNodesCollapse claim3Root2)
                    (ComputeNodesCollapse claim3Root2) }
              (ComputeNodesCollapse claim3Root2).children } := rfl
  rw [hdef, claim5_collapse2]
  have hpct : CalculateRootRelativePct claim5Col2 claim5Col2 = 1 := by
    rw [CalculateRootRelativePct_ratio]
    norm_num [claim5Col2]
  rw [hpct]
  have hch : claim5Col2.children = [claim5ColChild2] := rfl
  rw [hch]
  rw [CalculateTreeRelativePct_eq, List.map_cons, List.map_nil]
  have hch2 : claim5ColChild2.children = ([] : List PerfNode) := rfl
  rw [hch2, CalculateTreeRelativePct_eq, List.map_nil]
  have hcp : CalculateRootRelativePct ({ claim5Col2 with pct := 1 } : PerfNode)
      claim5ColChild2 = 1/4 := by
    rw [CalculateRootRelativePct_ratio]
    norm_num [claim5Col2, claim5ColChild2]
  rw [hcp]
  rfl

/-- C5 counterexample: with two same-named roots, the merged snapshot root
has duration 50 ns, but its first child keeps the percentage 1/3 computed
against its original pre-merge root of 30 ns, while the duration ratio
against the merged root is 1/5 — the spec's percentage equation fails. -/
theorem claim5_counterexample :
    ∃ t ∈ GetCallTreeThread [claim3Root1, claim3Root2],
      ∃ c ∈ t.children,
        c.pct = 1/3 ∧ CalculateRootRelativePct t c = 1/5 ∧
        c.pct ≠ CalculateRootRelativePct t c := by
  have hthread : GetCallTreeThread [claim3Root1, claim3Root2]
      = [ReduceChildren [claim5Crunched1, claim5Crunched2]] := by
    rw [GetCallTreeThread]
    have hmap : [claim3Root1, claim3Root2].map crunchRoot
        = [claim5Crunched1, claim5Crunched2] := by
      rw [List.map_cons, List.map_cons, List.map_nil, claim5_crunch1, claim5_crunch2]
    rw [hmap]
    have hlev : ComputeTreeLevelMap [claim5Crunched1, claim5Crunched2]
        = [[claim5Crunched1, claim5Crunched2]] := by
      rw [ComputeTreeLevelMap, levelNames]
      have hnames : ([claim5Crunched1, claim5Crunched2].map (·.name))
          = ["main", "main"] := rfl
      rw [hnames]
      have hdedup : (["main", "main"] : List String).dedup = ["main"] := by decide
      rw [hdedup, List.map_cons, List.map_nil]
      rw [List.filter_cons_of_pos (by decide), List.filter_cons_of_pos (by decide)]
      rfl
    rw [hlev, List.map_cons, List.map_nil]
  have hchil : (ReduceChildren [claim5Crunched1, claim5Crunched2]).children
      = claim5Crunched1.children ++ claim5Crunched2.children := by
    rw [ReduceChildren]
    simp
  have htn : (ReduceChildren [claim5Crunched1, claim5Crunched2]).nanos = 50 := rfl
  refine ⟨ReduceChildren [claim5Crunched1, claim5Crunched2], ?_, ?_⟩
  · rw [hthread]
    exact List.mem_cons_self _ _
  · refine ⟨{ granularity := Granularity.NS, value := 10, pct := 1/3, nanos := 10, name := "f", indent := 1, children := [], hits := 1 }, ?_, ?_⟩
    · rw [hchil]
      exact List.mem_append_left _ (List.mem_cons_self _ _)
    · have hpc : ({ granularity := Granularity.NS, value := 10, pct := 1/3, nanos := 10, name := "f", indent := 1, children := [], hits := 1 } : PerfNode).pct = 1/3 := rfl
      have hcr : CalculateRootRelativePct
          (ReduceChildren [claim5Crunched1, claim5Crunched2])
          { granularity := Granularity.NS, value := 10, pct := 1/3, nanos := 10, name := "f", indent := 1, children := [], hits := 1 } = 1/5 := by
        rw [CalculateRootRelativePct_ratio, htn]
        norm_num
      refine ⟨hpc, hcr, ?_⟩
      rw [hpc, hcr]
      norm_num

/-- C5 witness: a single root with a distinct name, dominated children and
positive duration satisfies the amended claim's hypotheses, and every tree
of its snapshot has root percentage 1 and correct in-range percentages. -/
theorem claim5_witness :
    (([claim3Root1].map (fun r => r.name)).Nodup ∧
      (∀ r ∈ [claim3Root1], bounded r = true) ∧
      (∀ r ∈ [claim3Root1], 0 < r.nanos)) ∧
    ∀ t ∈ GetCallTreeThread [claim3Root1],
      t.pct = 1 ∧
      treeAll (fun n => decide (n.pct = CalculateRootRelativePct t n)
        && (decide ((0:ℚ) ≤ n.pct) && decide (n.pct ≤ (1:ℚ)))) t = true :=
  ⟨⟨by decide, by decide, by decide⟩,
    claim5_pct_correct_distinct_roots [claim3Root1] (by decide) (by decide)
      (by decide)⟩
